import Mathlib

/-!
Shallow embedding of the `yep` compiler core (tokenizer, parser, partial
evaluator, remove-complex-operands pass, x86-64 code generator) and proofs
about the properties claimed of it.

Conventions of the embedding:
* Rust panics (`panic!`, `todo!`, `unwrap`, `assert`, out-of-bounds indexing)
  are modelled as the `fatal` outcome (or `Option.none` for the pure passes).
* Loops are modelled by structural recursion on an explicit fuel parameter;
  `fuelOut` marks fuel exhaustion, a modelling artifact distinct from `fatal`,
  so that `fatal` results unambiguously correspond to panics of the source.
* Machine integers are modelled as `Nat`/`Int` with explicit wrap-around
  (`% 2 ^ w`) where the source uses a fixed-width type and overflow can matter.
-/

namespace Yep

/-- Outcome of a fuel-driven computation: a value, a fatal abort (Rust panic),
or fuel exhaustion (modelling artifact, never a behaviour of the source). -/
inductive Res (α : Type) where
  | ok (val : α)
  | fatal
  | fuelOut
  deriving DecidableEq, Repr

instance : Monad Res where
  pure a := .ok a
  bind r f := match r with
    | .ok a => f a
    | .fatal => .fatal
    | .fuelOut => .fuelOut

/-! ## Token model (src/tokenizer.rs) -/

/-- Reserved words of the language (`Keyword` in src/tokenizer.rs). -/
inductive Keyword where
  | Let
  | Const
  deriving DecidableEq, Repr

/-- Token kinds (`TokenType` in src/tokenizer.rs). -/
inductive TokenType where
  | ParenthesesLeft
  | ParenthesesRight
  | BraceLeft
  | BraceRight
  | Comma
  | Dot
  | Plus
  | Minus
  | Star
  | Slash
  | Semicolon
  | Not
  | Equals
  | EqualsEquals
  | NotEquals
  | GreaterThan
  | GreaterThanEquals
  | LessThan
  | LessThanEquals
  | ColonEquals
  | DoubleColon
  | ArrowRight
  | Identifier
  | Number
  | String
  | Keyword (k : Keyword)
  | Eof
  deriving DecidableEq, Repr

/-- `Keyword::try_match_from_raw_value` in src/tokenizer.rs. -/
def Keyword.try_match_from_raw_value (raw : String) : Option Keyword :=
  if raw = "let" then some .Let
  else if raw = "const" then some .Const
  else none

/-- A lexical token (`Token` in src/tokenizer.rs); `location` is the pair
(current line, byte offset of the token start). -/
structure Token where
  type : TokenType
  location : Nat × Nat
  length : Nat
  literal_value : String
  deriving DecidableEq, Repr

/-- Byte-offset start position recorded on a token (second component of
`location`). -/
def tokStart (t : Token) : Nat := t.location.2

/-! ## Tokenizer state and helpers (src/tokenizer.rs) -/

/-- Tokenizer state (`Tokenizer` in src/tokenizer.rs). The source is the
byte/char sequence of the input. -/
structure Tokenizer where
  source : List Char
  cursor : Nat
  current_line : Nat
  current_column : Nat
  current_token_start : Nat
  deriving DecidableEq, Repr

namespace Tokenizer

/-- `Tokenizer::new`. -/
def new (source : List Char) : Tokenizer :=
  { source := source, cursor := 0, current_line := 1, current_column := 0,
    current_token_start := 0 }

/-- `Tokenizer::is_at_end`. -/
def is_at_end (t : Tokenizer) : Bool := t.source.length ≤ t.cursor

/-- `Tokenizer::consume_char`. Every call site of the source guards this with
an end-of-input check, so the default character of `getD` is never read. -/
def consume_char (t : Tokenizer) : Char × Tokenizer :=
  (t.source.getD t.cursor (Char.ofNat 0),
   { t with cursor := t.cursor + 1, current_column := t.current_column + 1 })

/-- `Tokenizer::peek_next_char`; the source panics when the cursor is at the
end of input, modelled by `none`. -/
def peek_next_char (t : Tokenizer) : Option Char :=
  if t.is_at_end then none
  else some (t.source.getD t.cursor (Char.ofNat 0))

/-- `Tokenizer::match_next_char`; `none` is the panic of `peek_next_char` at
end of input. -/
def match_next_char (t : Tokenizer) (wanted : Char) : Option (Bool × Tokenizer) :=
  match t.peek_next_char with
  | none => none
  | some c => if c = wanted then some (true, (t.consume_char).2) else some (false, t)

/-- `Tokenizer::make_token`: position is the recorded token start; the literal
is the source slice from the token start to the cursor (empty for `Eof`). -/
def make_token (t : Tokenizer) (ty : TokenType) : Token :=
  { type := ty,
    location := (t.current_line, t.current_token_start),
    length := t.cursor - t.current_token_start,
    literal_value :=
      if ty = .Eof then ""
      else ⟨(t.source.drop t.current_token_start).take (t.cursor - t.current_token_start)⟩ }

/-- Rust `char::is_whitespace` restricted to the characters reachable from a
byte cast to `char` (the White_Space code points below 256). -/
def rust_is_whitespace (c : Char) : Bool :=
  c = ' ' || c = '\t' || c = '\n' || c = Char.ofNat 11 || c = Char.ofNat 12 ||
  c = '\r' || c = Char.ofNat 133 || c = Char.ofNat 160

/-- Loop condition of the whitespace-skipping loop in
`Tokenizer::consume_token`: `c.is_whitespace() || c == '\n' || c == '\r'`. -/
def wsCond (c : Char) : Bool := rust_is_whitespace c || c = '\n' || c = '\r'

/-- Whitespace-skipping loop at the start of `Tokenizer::consume_token`.
`Sum.inl` is the `return None` exit (end of input reached while skipping),
`Sum.inr` carries the first non-whitespace character and the state. -/
def skip_whitespace : Nat → Char → Tokenizer → Res (Tokenizer ⊕ (Char × Tokenizer))
  | 0, _, _ => .fuelOut
  | n + 1, c, t =>
    if wsCond c then
      if t.is_at_end then .ok (.inl t)
      else
        let t1 := if c = '\n' then
            { t with current_line := t.current_line + 1, current_column := 1 }
          else t
        let p := t1.consume_char
        let t2 := { p.2 with current_token_start := p.2.cursor - 1 }
        skip_whitespace n p.1 t2
    else .ok (.inr (c, t))

/-- String-consuming loop of `Tokenizer::consume_string`; the boolean is the
`is_terminated` flag. -/
def consume_string_loop : Nat → Tokenizer → Res (Bool × Tokenizer)
  | 0, _ => .fuelOut
  | n + 1, t =>
    if t.is_at_end then .ok (false, t)
    else
      let p := t.consume_char
      if p.1 = '"' then .ok (true, p.2) else consume_string_loop n p.2

/-- `Tokenizer::consume_string`; an unterminated string is a fatal error. -/
def consume_string (n : Nat) (t : Tokenizer) : Res (Token × Tokenizer) :=
  match consume_string_loop n t with
  | .fuelOut => .fuelOut
  | .fatal => .fatal
  | .ok (is_terminated, t') =>
    if is_terminated then
      .ok ({ type := .String,
             location := (t'.current_line, t'.current_token_start),
             length := t'.cursor - 1 - t'.current_token_start,
             literal_value :=
               ⟨((t'.source.drop (t'.current_token_start + 1)).take
                   (t'.cursor - 1 - (t'.current_token_start + 1)))⟩ }, t')
    else .fatal

/-- Digit-consuming loop of `Tokenizer::consume_number`. -/
def consume_number_loop : Nat → Tokenizer → Res Tokenizer
  | 0, _ => .fuelOut
  | n + 1, t =>
    if t.is_at_end then .ok t
    else
      let c := t.source.getD t.cursor (Char.ofNat 0)
      if c.isDigit then consume_number_loop n (t.consume_char).2 else .ok t

/-- `Tokenizer::consume_number`. -/
def consume_number (n : Nat) (t : Tokenizer) : Res (Token × Tokenizer) :=
  match consume_number_loop n t with
  | .fuelOut => .fuelOut
  | .fatal => .fatal
  | .ok t' =>
    .ok ({ type := .Number,
           location := (t'.current_line, t'.current_token_start),
           length := t'.cursor - t'.current_token_start,
           literal_value :=
             ⟨(t'.source.drop t'.current_token_start).take
                 (t'.cursor - t'.current_token_start)⟩ }, t')

/-- Identifier characters accepted by `Tokenizer::consume_identifier_or_keyword`:
ASCII letters and underscore. -/
def isIdentChar (c : Char) : Bool :=
  ('a' ≤ c && c ≤ 'z') || ('A' ≤ c && c ≤ 'Z') || c = '_'

/-- Character-consuming loop of `Tokenizer::consume_identifier_or_keyword`. -/
def consume_identifier_loop : Nat → Tokenizer → Res Tokenizer
  | 0, _ => .fuelOut
  | n + 1, t =>
    if t.is_at_end then .ok t
    else
      let c := t.source.getD t.cursor (Char.ofNat 0)
      if isIdentChar c then consume_identifier_loop n (t.consume_char).2 else .ok t

/-- `Tokenizer::consume_identifier_or_keyword`. -/
def consume_identifier_or_keyword (n : Nat) (t : Tokenizer) : Res (Token × Tokenizer) :=
  match consume_identifier_loop n t with
  | .fuelOut => .fuelOut
  | .fatal => .fatal
  | .ok t' =>
    let raw : String :=
      ⟨(t'.source.drop t'.current_token_start).take (t'.cursor - t'.current_token_start)⟩
    let token_type : TokenType :=
      match Keyword.try_match_from_raw_value raw with
      | some k => .Keyword k
      | none => .Identifier
    .ok ({ type := token_type,
           location := (t'.current_line, t'.current_token_start),
           length := t'.cursor - t'.current_token_start,
           literal_value := raw }, t')

/-- Two-character dispatch helper for `-`, `!`, `=`, `>`, `<`: build `two` if
the wanted character follows, else `one`; propagates the panic of
`match_next_char` at end of input. -/
def two_char_token (t : Tokenizer) (wanted : Char) (two one : TokenType) :
    Res (Token × Tokenizer) :=
  match t.match_next_char wanted with
  | none => .fatal
  | some (true, t') => .ok (t'.make_token two, t')
  | some (false, t') => .ok (t'.make_token one, t')

/-- Wraps the token produced by a sub-consumer in `Some`, as in
`Some(token)` at the end of `Tokenizer::consume_token`, propagating the
panic/fuel outcomes. -/
def liftTok : Res (Token × Tokenizer) → Res (Option Token × Tokenizer)
  | .ok (tok, t') => .ok (some tok, t')
  | .fatal => .fatal
  | .fuelOut => .fuelOut

/-- Character dispatch of `Tokenizer::consume_token` (the `match c` after the
whitespace loop), split into its own definition for the proofs below. -/
def consume_token_dispatch (n : Nat) (c : Char) (t1 : Tokenizer) :
    Res (Option Token × Tokenizer) :=
  if c = '(' then .ok (some (t1.make_token .ParenthesesLeft), t1)
  else if c = ')' then .ok (some (t1.make_token .ParenthesesRight), t1)
  else if c = '{' then .ok (some (t1.make_token .BraceLeft), t1)
  else if c = '}' then .ok (some (t1.make_token .BraceRight), t1)
  else if c = ',' then .ok (some (t1.make_token .Comma), t1)
  else if c = '.' then .ok (some (t1.make_token .Dot), t1)
  else if c = '+' then .ok (some (t1.make_token .Plus), t1)
  else if c = '*' then .ok (some (t1.make_token .Star), t1)
  else if c = '/' then .ok (some (t1.make_token .Slash), t1)
  else if c = ';' then .ok (some (t1.make_token .Semicolon), t1)
  else if c = '-' then liftTok (two_char_token t1 '>' .ArrowRight .Minus)
  else if c = '!' then liftTok (two_char_token t1 '=' .NotEquals .Not)
  else if c = '=' then liftTok (two_char_token t1 '=' .EqualsEquals .Equals)
  else if c = '>' then liftTok (two_char_token t1 '=' .GreaterThanEquals .GreaterThan)
  else if c = '<' then liftTok (two_char_token t1 '=' .LessThanEquals .LessThan)
  else if c = ':' then
    match t1.match_next_char '=' with
    | none => .fatal
    | some (true, t') => .ok (some (t'.make_token .ColonEquals), t')
    | some (false, t2) =>
      match t2.match_next_char ':' with
      | none => .fatal
      | some (true, t') => .ok (some (t'.make_token .DoubleColon), t')
      | some (false, _) => .fatal
  else if c = '"' then liftTok (consume_string n t1)
  else if c.isDigit then liftTok (consume_number n t1)
  else if isIdentChar c then liftTok (consume_identifier_or_keyword n t1)
  else .fatal

/-- `Tokenizer::consume_token`: skip whitespace, then dispatch on the next
character. `ok (none, t)` is the `return None` path (trailing whitespace). -/
def consume_token (n : Nat) (t : Tokenizer) : Res (Option Token × Tokenizer) :=
  let p := t.consume_char
  match skip_whitespace n p.1 p.2 with
  | .fuelOut => .fuelOut
  | .fatal => .fatal
  | .ok (.inl t') => .ok (none, t')
  | .ok (.inr (c, t1)) => consume_token_dispatch n c t1

/-- Main loop of `Tokenizer::tokenize`: one token per iteration, then the
terminating `Eof` token. -/
def tokenize_loop : Nat → Tokenizer → Res (List Token)
  | 0, _ => .fuelOut
  | n + 1, t =>
    if t.is_at_end then .ok [t.make_token .Eof]
    else
      let t1 := { t with current_token_start := t.cursor }
      match consume_token n t1 with
      | .fuelOut => .fuelOut
      | .fatal => .fatal
      | .ok (optTok, t2) =>
        match tokenize_loop n t2 with
        | .fuelOut => .fuelOut
        | .fatal => .fatal
        | .ok rest =>
          .ok (match optTok with
               | some tok => tok :: rest
               | none => rest)

/-- `Tokenizer::tokenize` on a source string. The fuel is generous enough for
any input; every loop of the source advances the cursor each iteration. -/
def tokenize (src : String) : Res (List Token) :=
  tokenize_loop (2 * src.length + 4) (Tokenizer.new src.data)

end Tokenizer

/-! ## AST (src/ast.rs)

The `Grouping` constructor is built by `Parser::parse_primary` in
src/parser.rs; the `Expression` enum in src/ast.rs does not declare it and the
passes match on `Expression` without an arm for it, so in the passes below it
maps to the failure outcome. -/

/-- Binary/unary operators (`Operator` in src/ast.rs). The enum has only
`Sub` and `Add`. -/
inductive Operator where
  | Sub
  | Add
  deriving DecidableEq, Repr

/-- Expressions (`Expression` in src/ast.rs, plus the `Grouping` form built by
the parser). Constants are `i64` values. -/
inductive Expression where
  | Constant (value : Int)
  | UnaryOp (operator : Operator) (operand : Expression)
  | BinaryOp (left : Expression) (operator : Operator) (right : Expression)
  | Call (name : String) (args : List Expression)
  | VariableAccess (name : String)
  | Grouping (expression : Expression)

/-- Statements (`Statement` in src/ast.rs). -/
inductive Statement where
  | Expression (e : Expression)
  | VariableDeclaration (name : String) (value : Expression)

/-- A module / program (`Module` in src/ast.rs). -/
structure Module where
  statements : List Statement

/-- `impl From<&TokenType> for Operator` in src/ast.rs: only `Plus` and
`Minus` convert; every other token type panics ("Unknown operator"). -/
def operatorFromTokenType : TokenType → Option Operator
  | .Plus => some .Add
  | .Minus => some .Sub
  | _ => none

/-- Whether an expression is a plain variable access. -/
def Expression.isVariableAccess : Expression → Bool
  | .VariableAccess _ => true
  | _ => false

mutual

/-- Syntactic size of an expression (one unit per constructor), used as a
fuel bound for the ANF pass and as an induction measure. -/
def exprSize : Expression → Nat
  | .Constant _ => 1
  | .VariableAccess _ => 1
  | .UnaryOp _ operand => 1 + exprSize operand
  | .BinaryOp left _ right => 1 + exprSize left + exprSize right
  | .Grouping e => 1 + exprSize e
  | .Call _ args => 1 + exprSizeArgs args

/-- Syntactic size of an argument list. -/
def exprSizeArgs : List Expression → Nat
  | [] => 0
  | a :: rest => 1 + exprSize a + exprSizeArgs rest

end

/-- The `i64` wrap-around used for constant folding (two's-complement 64-bit,
release-mode semantics; the spec permits wrap). -/
def wrap64 (x : Int) : Int := (x + 2 ^ 63) % 2 ^ 64 - 2 ^ 63

/-- `str::parse::<i64>().unwrap()` on a digit-only literal: the value must fit
in a signed 64-bit integer, otherwise the unwrap panics (also on an empty or
non-digit literal, which the tokenizer never produces for `Number`). -/
def parseI64 (s : String) : Option Int :=
  if s.data ≠ [] ∧ s.data.all Char.isDigit then
    let n := s.data.foldl (fun acc c => acc * 10 + (c.toNat - '0'.toNat)) 0
    if n ≤ 2 ^ 63 - 1 then some (Int.ofNat n) else none
  else none

/-! ## Parser (src/parser.rs) -/

/-- Parser state (`Parser` in src/parser.rs). -/
structure ParserState where
  tokens : List Token
  cursor : Nat
  deriving DecidableEq, Repr

namespace Parser

/-- Current token (`self.tokens[self.cursor]`); `none` models the index panic
past the end of the token vector. -/
def currentToken (p : ParserState) : Option Token := p.tokens.get? p.cursor

/-- `Parser::consume_required`: advance past a token of the required type or
fail fatally. -/
def consume_required (p : ParserState) (required_type : TokenType) :
    Option (Token × ParserState) :=
  match currentToken p with
  | none => none
  | some tok =>
    if tok.type = required_type then some (tok, { p with cursor := p.cursor + 1 })
    else none

/-- `Parser::consume_if_matched`: advance and return the token when its type
is among the wanted ones; `none` models the index panic. -/
def consume_if_matched (p : ParserState) (wanted : List TokenType) :
    Option (Option Token × ParserState) :=
  match currentToken p with
  | none => none
  | some tok =>
    if wanted.any (fun w => w = tok.type) then
      some (some tok, { p with cursor := p.cursor + 1 })
    else some (none, p)

/-- `Parser::get_previous_token`. -/
def get_previous_token (p : ParserState) : Option Token :=
  if p.cursor = 0 then none
  else p.tokens.get? (p.cursor - 1)

/-- `Parser::is_at_end`: current token is `Eof`; the index panic on an
ill-formed token vector is `none`. -/
def is_at_end (p : ParserState) : Option Bool :=
  match currentToken p with
  | none => none
  | some tok => some (tok.type = .Eof)

/-- Request tags for the mutually recursive expression productions of the
parser, defunctionalized into the single fuel-recursive `parse_exprStep` so
that the definition is structural on the fuel (and hence executable by the
kernel). Each tag corresponds to one source function; the two `Loop` tags are
the `while` loops of `parse_term` and `parse_factor`, carrying the
accumulated left-hand expression. -/
inductive EReq where
  | expr
  | term
  | termLoop (acc : Expression)
  | factor
  | factorLoop (acc : Expression)
  | fnCall
  | unary
  | primary

/-- One step of the recursive-descent expression parser. Each branch is the
body of the corresponding source function in src/parser.rs. -/
def parse_exprStep : Nat → EReq → ParserState → Res (Expression × ParserState)
  | 0, _, _ => .fuelOut
  | n + 1, req, p =>
    match req with
    | .expr =>
      -- `Parser::parse_expression`
      parse_exprStep n .term p
    | .term =>
      -- `Parser::parse_term`
      match parse_exprStep n .factor p with
      | .fuelOut => .fuelOut
      | .fatal => .fatal
      | .ok (e, p1) => parse_exprStep n (.termLoop e) p1
    | .termLoop e =>
      -- the `while` loop of `Parser::parse_term` (left-associative `+`/`-`)
      match consume_if_matched p [.Plus, .Minus] with
      | none => .fatal
      | some (none, p1) => .ok (e, p1)
      | some (some _, p1) =>
        match get_previous_token p1 with
        | none => .fatal
        | some opTok =>
          match operatorFromTokenType opTok.type with
          | none => .fatal
          | some op =>
            match parse_exprStep n .factor p1 with
            | .fuelOut => .fuelOut
            | .fatal => .fatal
            | .ok (rhs, p2) => parse_exprStep n (.termLoop (.BinaryOp e op rhs)) p2
    | .factor =>
      -- `Parser::parse_factor`
      match parse_exprStep n .fnCall p with
      | .fuelOut => .fuelOut
      | .fatal => .fatal
      | .ok (e, p1) => parse_exprStep n (.factorLoop e) p1
    | .factorLoop e =>
      -- the `while` loop of `Parser::parse_factor` (`*`/`/`); note that
      -- `operatorFromTokenType` fails for `Star` and `Slash`
      match consume_if_matched p [.Star, .Slash] with
      | none => .fatal
      | some (none, p1) => .ok (e, p1)
      | some (some _, p1) =>
        match get_previous_token p1 with
        | none => .fatal
        | some opTok =>
          match operatorFromTokenType opTok.type with
          | none => .fatal
          | some op =>
            match parse_exprStep n .fnCall p1 with
            | .fuelOut => .fuelOut
            | .fatal => .fatal
            | .ok (rhs, p2) => parse_exprStep n (.factorLoop (.BinaryOp e op rhs)) p2
    | .fnCall =>
      -- `Parser::parse_function_call`: the call form requires its single
      -- argument to be an `Identifier` token and its callee to be a plain
      -- variable access; anything else is fatal. It consumes its own `;`.
      match parse_exprStep n .unary p with
      | .fuelOut => .fuelOut
      | .fatal => .fatal
      | .ok (expression, p1) =>
        match consume_if_matched p1 [.ParenthesesLeft] with
        | none => .fatal
        | some (none, p2) => .ok (expression, p2)
        | some (some _, p2) =>
          match consume_required p2 .Identifier with
          | none => .fatal
          | some (variable_access, p3) =>
            match consume_required p3 .ParenthesesRight with
            | none => .fatal
            | some (_, p4) =>
              match consume_required p4 .Semicolon with
              | none => .fatal
              | some (_, p5) =>
                match expression with
                | .VariableAccess function_name =>
                  .ok (.Call function_name
                        [.VariableAccess variable_access.literal_value], p5)
                | _ => .fatal
    | .unary =>
      -- `Parser::parse_unary`
      match consume_if_matched p [.Minus] with
      | none => .fatal
      | some (some opTok, p1) =>
        match operatorFromTokenType opTok.type with
        | none => .fatal
        | some op =>
          match parse_exprStep n .unary p1 with
          | .fuelOut => .fuelOut
          | .fatal => .fatal
          | .ok (rhs, p2) => .ok (.UnaryOp op rhs, p2)
      | some (none, p1) => parse_exprStep n .primary p1
    | .primary =>
      -- `Parser::parse_primary`: identifier, number, or parenthesized
      -- expression; anything else panics ("Expected expression")
      match consume_if_matched p [.Identifier] with
      | none => .fatal
      | some (some identifier, p1) => .ok (.VariableAccess identifier.literal_value, p1)
      | some (none, p1) =>
        match consume_if_matched p1 [.Number] with
        | none => .fatal
        | some (some number, p2) =>
          match parseI64 number.literal_value with
          | none => .fatal
          | some v => .ok (.Constant v, p2)
        | some (none, p2) =>
          match consume_if_matched p2 [.ParenthesesLeft] with
          | none => .fatal
          | some (some _, p3) =>
            match parse_exprStep n .expr p3 with
            | .fuelOut => .fuelOut
            | .fatal => .fatal
            | .ok (e, p4) =>
              match consume_required p4 .ParenthesesRight with
              | none => .fatal
              | some (_, p5) => .ok (.Grouping e, p5)
          | some (none, _) => .fatal

/-- `Parser::parse_expression`. -/
def parse_expression (n : Nat) (p : ParserState) : Res (Expression × ParserState) :=
  parse_exprStep n .expr p

/-- `Parser::parse_term`. -/
def parse_term (n : Nat) (p : ParserState) : Res (Expression × ParserState) :=
  parse_exprStep n .term p

/-- `Parser::parse_factor`. -/
def parse_factor (n : Nat) (p : ParserState) : Res (Expression × ParserState) :=
  parse_exprStep n .factor p

/-- `Parser::parse_function_call`. -/
def parse_function_call (n : Nat) (p : ParserState) : Res (Expression × ParserState) :=
  parse_exprStep n .fnCall p

/-- `Parser::parse_unary`. -/
def parse_unary (n : Nat) (p : ParserState) : Res (Expression × ParserState) :=
  parse_exprStep n .unary p

/-- `Parser::parse_primary`. -/
def parse_primary (n : Nat) (p : ParserState) : Res (Expression × ParserState) :=
  parse_exprStep n .primary p

/-- `Parser::parse_variable_declaration`. -/
def parse_variable_declaration (n : Nat) (p : ParserState) :
    Res (Statement × ParserState) :=
  match consume_if_matched p [.Keyword .Let] with
  | none => .fatal
  | some (some _, p1) =>
    match consume_required p1 .Identifier with
    | none => .fatal
    | some (identifier, p2) =>
      match consume_required p2 .Equals with
      | none => .fatal
      | some (_, p3) =>
        match parse_expression n p3 with
        | .fuelOut => .fuelOut
        | .fatal => .fatal
        | .ok (initializer, p4) =>
          match consume_required p4 .Semicolon with
          | none => .fatal
          | some (_, p5) =>
            .ok (.VariableDeclaration identifier.literal_value initializer, p5)
  | some (none, p1) =>
    match parse_expression n p1 with
    | .fuelOut => .fuelOut
    | .fatal => .fatal
    | .ok (e, p2) => .ok (.Expression e, p2)

/-- `Parser::parse_statement` (delegates to `parse_variable_declaration`). -/
def parse_statement (n : Nat) (p : ParserState) : Res (Statement × ParserState) :=
  parse_variable_declaration n p

/-- The `while` loop of `Parser::parse`. -/
def parse_loop : Nat → ParserState → Res (List Statement × ParserState)
  | 0, _ => .fuelOut
  | n + 1, p =>
    match is_at_end p with
    | none => .fatal
    | some true => .ok ([], p)
    | some false =>
      match parse_statement n p with
      | .fuelOut => .fuelOut
      | .fatal => .fatal
      | .ok (stmt, p1) =>
        match parse_loop n p1 with
        | .fuelOut => .fuelOut
        | .fatal => .fatal
        | .ok (stmts, p2) => .ok (stmt :: stmts, p2)

/-- `Parser::parse` on a token vector, with fuel generous enough for any
input (every grammar production consumes at least one token between two
nested uses of the same production). -/
def parse (tokens : List Token) : Res Module :=
  match parse_loop (8 * tokens.length + 16) { tokens := tokens, cursor := 0 } with
  | .fuelOut => .fuelOut
  | .fatal => .fatal
  | .ok (statements, _) => .ok { statements := statements }

end Parser

/-! ## Partial evaluator (src/partial_evaluator.rs) -/

namespace PartialEvaluator

/-- `PartialEvaluator::evaluate_expression`. A unary or binary op whose
evaluated children are all constants folds to a constant (with two's-
complement 64-bit wrap); otherwise the original expression is returned
unchanged. `none` models the `todo!()` panic for `Operator::Add` as a unary
operator. -/
def evaluate_expression : Expression → Option Expression
  | .UnaryOp operator operand =>
    match evaluate_expression operand with
    | none => none
    | some operand' =>
      match operand' with
      | .Constant value =>
        match operator with
        | .Sub => some (.Constant (wrap64 (-value)))
        | .Add => none
      | _ => some (.UnaryOp operator operand)
  | .BinaryOp left operator right =>
    match evaluate_expression left with
    | none => none
    | some left' =>
      match evaluate_expression right with
      | none => none
      | some right' =>
        match left', right' with
        | .Constant left_value, .Constant right_value =>
          match operator with
          | .Sub => some (.Constant (wrap64 (left_value - right_value)))
          | .Add => some (.Constant (wrap64 (left_value + right_value)))
        | _, _ => some (.BinaryOp left operator right)
  | e => some e

/-- `PartialEvaluator::evaluate_statement`. -/
def evaluate_statement : Statement → Option Statement
  | .Expression e => (evaluate_expression e).map .Expression
  | .VariableDeclaration name value =>
      (evaluate_expression value).map (.VariableDeclaration name)

/-- The statement loop of `PartialEvaluator::evaluate` (the
`iter().map(...).collect()`), propagating a panic from any statement. -/
def evaluate_statements : List Statement → Option (List Statement)
  | [] => some []
  | s :: rest =>
    match evaluate_statement s with
    | none => none
    | some s' =>
      match evaluate_statements rest with
      | none => none
      | some rest' => some (s' :: rest')

/-- `PartialEvaluator::evaluate`. -/
def evaluate (m : Module) : Option Module :=
  (evaluate_statements m.statements).map Module.mk

end PartialEvaluator

/-! ## Remove-complex-operands (ANF) pass (src/remove_complex_operands.rs) -/

namespace RemoveComplexOperandsPass

/-- `RemoveComplexOperandsPass::declare_temporary_variable`: mint the next
`tmp_k` name and the declaration binding it to the initializer. The counter
is a `u16` in the source, hence the wrap. -/
def declare_temporary_variable (initializer : Expression) (k : Nat) :
    String × Statement × Nat :=
  let temp_variable_name := "tmp_" ++ toString k
  (temp_variable_name,
   .VariableDeclaration temp_variable_name initializer,
   (k + 1) % 2 ^ 16)

/-- Input tag of the defunctionalized `transform_expression`: either one
expression with its `should_create_temporary_variable` flag, or the argument
list of a call (the `args.iter().map(...)` loop of the `Call` arm). -/
inductive TIn where
  | expr (e : Expression) (should_create_temporary_variable : Bool)
  | args (l : List Expression)

/-- Output tag matching `TIn`: a rewritten expression with its additional
statements, or the list of per-argument results. -/
inductive TOut where
  | expr (e : Expression) (additional_statements : List Statement)
  | args (results : List (Expression × List Statement))

/-- `RemoveComplexOperandsPass::transform_expression`, defunctionalized over
`TIn`/`TOut` and made structural on a fuel parameter so the kernel can
execute it. The `u16` temporary-variable counter is threaded explicitly.
`fatal` arises only from the source's non-exhaustive match (a `Grouping`
expression, which `src/ast.rs` does not declare); the cross-tag output arms
are unreachable. -/
def transform_step : Nat → TIn → Nat → Res (TOut × Nat)
  | 0, _, _ => .fuelOut
  | n + 1, .expr e should_create_temporary_variable, k =>
    match e with
    | .Constant _ => .ok (.expr e [], k)
    | .VariableAccess _ => .ok (.expr e [], k)
    | .UnaryOp operator operand =>
      match transform_step n (.expr operand true) k with
      | .fuelOut => .fuelOut
      | .fatal => .fatal
      | .ok (.args _, _) => .fatal
      | .ok (.expr operand' additional_statements, k1) =>
        if !should_create_temporary_variable then
          .ok (.expr (.UnaryOp operator operand') additional_statements, k1)
        else
          let d := declare_temporary_variable (.UnaryOp operator operand') k1
          .ok (.expr (.VariableAccess d.1) (additional_statements ++ [d.2.1]), d.2.2)
    | .BinaryOp left operator right =>
      match transform_step n (.expr left true) k with
      | .fuelOut => .fuelOut
      | .fatal => .fatal
      | .ok (.args _, _) => .fatal
      | .ok (.expr left' left_stmts, k1) =>
        match transform_step n (.expr right true) k1 with
        | .fuelOut => .fuelOut
        | .fatal => .fatal
        | .ok (.args _, _) => .fatal
        | .ok (.expr right' right_stmts, k2) =>
          let new_expression := Expression.BinaryOp left' operator right'
          let additional_statements := left_stmts ++ right_stmts
          if !should_create_temporary_variable then
            .ok (.expr new_expression additional_statements, k2)
          else
            let d := declare_temporary_variable new_expression k2
            .ok (.expr (.VariableAccess d.1) (additional_statements ++ [d.2.1]), d.2.2)
    | .Call name args =>
      match transform_step n (.args args) k with
      | .fuelOut => .fuelOut
      | .fatal => .fatal
      | .ok (.expr _ _, _) => .fatal
      | .ok (.args results, k1) =>
        let new_args := results.map Prod.fst
        let additional_statements := (results.map Prod.snd).flatten
        let d := declare_temporary_variable (.Call name new_args) k1
        .ok (.expr (.VariableAccess d.1) (additional_statements ++ [d.2.1]), d.2.2)
    | .Grouping _ => .fatal
  | n + 1, .args l, k =>
    match l with
    | [] => .ok (.args [], k)
    | a :: rest =>
      match transform_step n (.expr a true) k with
      | .fuelOut => .fuelOut
      | .fatal => .fatal
      | .ok (.args _, _) => .fatal
      | .ok (.expr a' a_stmts, k1) =>
        match transform_step n (.args rest) k1 with
        | .fuelOut => .fuelOut
        | .fatal => .fatal
        | .ok (.expr _ _, _) => .fatal
        | .ok (.args results, k2) => .ok (.args ((a', a_stmts) :: results), k2)

/-- `RemoveComplexOperandsPass::transform_expression` with fuel sufficient
for the expression (every recursive step of `transform_step` strictly
decreases the syntactic size of the processed input, so `exprSize e + 1`
fuel can never run out). -/
def transform_expression (e : Expression) (should_create_temporary_variable : Bool)
    (k : Nat) : Res ((Expression × List Statement) × Nat) :=
  match transform_step (exprSize e + 1) (.expr e should_create_temporary_variable) k with
  | .fuelOut => .fuelOut
  | .fatal => .fatal
  | .ok (.expr e' extras, k') => .ok ((e', extras), k')
  | .ok (.args _, _) => .fatal

/-- `RemoveComplexOperandsPass::transform_statement`: an expression statement
hits `todo!()` (fatal); a variable declaration is rewritten with
`should_create_temporary_variable = false` and its extras emitted before it. -/
def transform_statement (stmt : Statement) (k : Nat) : Res (List Statement × Nat) :=
  match stmt with
  | .Expression _ => .fatal
  | .VariableDeclaration name initializer_expression =>
    match transform_expression initializer_expression false k with
    | .fuelOut => .fuelOut
    | .fatal => .fatal
    | .ok ((e', additional_statements), k') =>
      .ok (additional_statements ++ [.VariableDeclaration name e'], k')

/-- The statement loop of `RemoveComplexOperandsPass::run` (the `flat_map`),
threading the temporary-variable counter across statements. -/
def run_statements : List Statement → Nat → Res (List Statement × Nat)
  | [], k => .ok ([], k)
  | stmt :: rest, k =>
    match transform_statement stmt k with
    | .fuelOut => .fuelOut
    | .fatal => .fatal
    | .ok (stmts, k1) =>
      match run_statements rest k1 with
      | .fuelOut => .fuelOut
      | .fatal => .fatal
      | .ok (stmts', k2) => .ok (stmts ++ stmts', k2)

/-- `RemoveComplexOperandsPass::run` starting from `temp_variable_index = 0`. -/
def run (m : Module) : Res Module :=
  match run_statements m.statements 0 with
  | .fuelOut => .fuelOut
  | .fatal => .fatal
  | .ok (statements, _) => .ok { statements := statements }

end RemoveComplexOperandsPass

/-! ## Code generator (src/codegen.rs) -/

namespace X86AssemblyCodegen

/-- Frame environment (`Environment` in src/codegen.rs): variable name to
stack offset, and the running offset. Offsets are `u32`. The hash map is
modelled as an association list where the most recent binding of a name
shadows older ones. -/
structure Environment where
  allocated_variables : List (String × Nat)
  stack_offset : Nat

/-- `Environment::default()`. -/
def Environment.default : Environment := ⟨[], 0⟩

/-- `Environment::allocate_variable`. -/
def Environment.allocate_variable (env : Environment) (name : String) : Environment :=
  let off := (env.stack_offset + 4) % 2 ^ 32
  { allocated_variables := (name, off) :: env.allocated_variables,
    stack_offset := off }

/-- `Environment::get_variable_stack_offset`; `none` models the `unwrap`
panic on an unknown variable. -/
def Environment.get_variable_stack_offset (env : Environment) (name : String) :
    Option Nat :=
  env.allocated_variables.lookup name

/-- `X86AssemblyCodegen::emit_prelude`. -/
def emit_prelude : List String :=
  ["global main", "extern print_int", "section .text", "main:",
   "push rbp", "mov rbp, rsp"]

/-- `X86AssemblyCodegen::emit_epilogue`. -/
def emit_epilogue : List String :=
  ["mov rsp, rbp", "pop rbp", "xor rax, rax", "ret"]

/-- The `bytes_needed` sum of `emit_stack_space_allocation`: 4 bytes per
variable-declaration statement, summed as a `u32` (wrapping in release
builds). -/
def bytesNeeded (stmts : List Statement) : Nat :=
  stmts.foldl
    (fun acc s =>
      match s with
      | .Expression _ => acc
      | .VariableDeclaration _ _ => (acc + 4) % 2 ^ 32)
    0

/-- `X86AssemblyCodegen::emit_stack_space_allocation`: when any stack bytes
are needed, round up to a multiple of 16 with `(bytes_needed + 15) & !15`
(32-bit mask `0xFFFFFFF0`) and emit a single `sub rsp` line. -/
def emit_stack_space_allocation (stmts : List Statement) : List String :=
  let bytes_needed := bytesNeeded stmts
  if bytes_needed > 0 then
    let aligned_space := (bytes_needed + 15) &&& 0xFFFFFFF0
    ["sub rsp, " ++ toString aligned_space]
  else []

/-- `X86AssemblyCodegen::emit_variable_declaration`: allocate the slot, then
store a constant initializer; a variable-access initializer is `todo!()` and
any other shape panics, both fatal. -/
def emit_variable_declaration (name : String) (initializer : Expression)
    (env : Environment) : Res (List String × Environment) :=
  let env' := env.allocate_variable name
  match env'.get_variable_stack_offset name with
  | none => .fatal
  | some stack_offset =>
    match initializer with
    | .Constant value =>
      .ok (["mov dword [rbp - " ++ toString stack_offset ++ "], " ++ toString value],
           env')
    | .VariableAccess _ => .fatal
    | _ => .fatal

/-- `X86AssemblyCodegen::emit_function_call`: exactly one argument (the
`assert_eq!` panics otherwise), which must be a constant or a variable
access. -/
def emit_function_call (name : String) (args : List Expression)
    (env : Environment) : Res (List String × Environment) :=
  if args.length = 1 then
    match args[0]? with
    | none => .fatal
    | some arg =>
      match arg with
      | .Constant value =>
        .ok (["mov dword rdi, " ++ toString value, "call " ++ name], env)
      | .VariableAccess m =>
        match env.get_variable_stack_offset m with
        | none => .fatal
        | some stack_offset =>
          .ok (["mov dword rax, [rbp - " ++ toString stack_offset ++ "]",
                "mov dword rdi, rax", "call " ++ name], env)
      | _ => .fatal
  else .fatal

/-- `X86AssemblyCodegen::emit_expression`: only calls are emitted; everything
else is `todo!()`. -/
def emit_expression (e : Expression) (env : Environment) :
    Res (List String × Environment) :=
  match e with
  | .Call name args => emit_function_call name args env
  | _ => .fatal

/-- `X86AssemblyCodegen::emit_statement`. -/
def emit_statement (stmt : Statement) (env : Environment) :
    Res (List String × Environment) :=
  match stmt with
  | .Expression e => emit_expression e env
  | .VariableDeclaration name value => emit_variable_declaration name value env

/-- The statement loop of `X86AssemblyCodegen::generate` (the `flat_map`),
threading the environment. -/
def emit_statements : List Statement → Environment → Res (List String × Environment)
  | [], env => .ok ([], env)
  | stmt :: rest, env =>
    match emit_statement stmt env with
    | .fuelOut => .fuelOut
    | .fatal => .fatal
    | .ok (lines, env1) =>
      match emit_statements rest env1 with
      | .fuelOut => .fuelOut
      | .fatal => .fatal
      | .ok (lines', env2) => .ok (lines ++ lines', env2)

/-- `X86AssemblyCodegen::generate`: prelude, stack reservation, statement
code, epilogue. -/
def generate (m : Module) : Res (List String) :=
  match emit_statements m.statements Environment.default with
  | .fuelOut => .fuelOut
  | .fatal => .fatal
  | .ok (program_instructions, _) =>
    .ok (emit_prelude ++ emit_stack_space_allocation m.statements ++
         program_instructions ++ emit_epilogue)

end X86AssemblyCodegen

/-! ## Property definitions -/

/-- Map over the value of a `Res`. -/
def Res.map (f : α → β) : Res α → Res β
  | .ok a => .ok (f a)
  | .fatal => .fatal
  | .fuelOut => .fuelOut

/-- An atom in the sense of the ANF pass: a constant or a variable access. -/
def isAtom : Expression → Bool
  | .Constant _ => true
  | .VariableAccess _ => true
  | _ => false

/-- An expression is in A-normal form when every operand of a unary op,
every operand of a binary op, and every call argument is an atom (atoms have
no subexpressions, so one level of checking covers the whole subtree; a
grouping is transparent). -/
def anfExpr : Expression → Bool
  | .Constant _ => true
  | .VariableAccess _ => true
  | .UnaryOp _ operand => isAtom operand
  | .BinaryOp left _ right => isAtom left && isAtom right
  | .Call _ args => args.all isAtom
  | .Grouping e => anfExpr e

/-- A statement is in A-normal form when its expression is. -/
def anfStatement : Statement → Bool
  | .Expression e => anfExpr e
  | .VariableDeclaration _ value => anfExpr value

/-- A module is in A-normal form when all its statements are. -/
def anfModule (m : Module) : Bool := m.statements.all anfStatement

/-- Whether an expression contains a variable access or a call anywhere. -/
def containsVarOrCall : Expression → Bool
  | .Constant _ => false
  | .VariableAccess _ => true
  | .Call _ _ => true
  | .UnaryOp _ operand => containsVarOrCall operand
  | .BinaryOp left _ right => containsVarOrCall left || containsVarOrCall right
  | .Grouping e => containsVarOrCall e

/-- Whether a statement is a variable declaration. -/
def isVarDecl : Statement → Bool
  | .VariableDeclaration _ _ => true
  | .Expression _ => false

/-- Number of variable-declaration statements (the `N` of the stack
reservation). -/
def numVarDecls (stmts : List Statement) : Nat := stmts.countP (fun s => isVarDecl s)

/-- Whether an assembly line is a `sub rsp, _` line. -/
def isSubRspLine (s : String) : Bool := s.data.take 8 = "sub rsp,".data

/-! ## Claims about the parser's operator support and call arguments -/

/-- Claim C1: parsing the valid source `let x = 2 * 3;` aborts fatally
instead of producing a binary-op node with a multiply operator: `parse_factor`
consumes the `*` token, but the `Operator` enum has no multiply or divide
constructor, so the `From<&TokenType>` conversion panics. -/
theorem parse_multiplication_aborts :
    Tokenizer.tokenize "let x = 2 * 3;" = .ok
      [⟨.Keyword .Let, (1, 0), 3, "let"⟩, ⟨.Identifier, (1, 4), 1, "x"⟩,
       ⟨.Equals, (1, 6), 1, "="⟩, ⟨.Number, (1, 8), 1, "2"⟩,
       ⟨.Star, (1, 10), 1, "*"⟩, ⟨.Number, (1, 12), 1, "3"⟩,
       ⟨.Semicolon, (1, 13), 1, ";"⟩, ⟨.Eof, (1, 13), 1, ""⟩] ∧
    Parser.parse
      [⟨.Keyword .Let, (1, 0), 3, "let"⟩, ⟨.Identifier, (1, 4), 1, "x"⟩,
       ⟨.Equals, (1, 6), 1, "="⟩, ⟨.Number, (1, 8), 1, "2"⟩,
       ⟨.Star, (1, 10), 1, "*"⟩, ⟨.Number, (1, 12), 1, "3"⟩,
       ⟨.Semicolon, (1, 13), 1, ";"⟩, ⟨.Eof, (1, 13), 1, ""⟩] = .fatal :=
  ⟨rfl, rfl⟩

/-- Claim C2: parsing `print_int(4);`, whose single call argument is a number
literal, aborts fatally instead of producing a `Call` node:
`parse_function_call` requires the argument token to be an `Identifier`. -/
theorem parse_constant_call_argument_aborts :
    Tokenizer.tokenize "print_int(4);" = .ok
      [⟨.Identifier, (1, 0), 9, "print_int"⟩, ⟨.ParenthesesLeft, (1, 9), 1, "("⟩,
       ⟨.Number, (1, 10), 1, "4"⟩, ⟨.ParenthesesRight, (1, 11), 1, ")"⟩,
       ⟨.Semicolon, (1, 12), 1, ";"⟩, ⟨.Eof, (1, 12), 1, ""⟩] ∧
    Parser.parse
      [⟨.Identifier, (1, 0), 9, "print_int"⟩, ⟨.ParenthesesLeft, (1, 9), 1, "("⟩,
       ⟨.Number, (1, 10), 1, "4"⟩, ⟨.ParenthesesRight, (1, 11), 1, ")"⟩,
       ⟨.Semicolon, (1, 12), 1, ";"⟩, ⟨.Eof, (1, 12), 1, ""⟩] = .fatal :=
  ⟨rfl, rfl⟩

/-- Claim C3: the ANF pass does not complete on a module containing an
expression statement; `transform_statement` hits `todo!()` and panics. -/
theorem anf_expression_statement_aborts :
    RemoveComplexOperandsPass.run
      { statements := [.Expression (.Constant 5)] } = .fatal := rfl

/-- Claim C5: `tokenize` is not total on the recognized alphabet: on the
source `"="` it panics (in `peek_next_char`, reached from `match_next_char`
at end of input) instead of returning a token list ending in `Eof`. -/
theorem tokenize_trailing_equals_aborts :
    Tokenizer.tokenize "=" = .fatal := rfl

/-! ## Claim C4: partial evaluation of trees containing variables or calls -/

/-- Size is at least one for every expression. -/
lemma exprSize_pos (e : Expression) : 1 ≤ exprSize e := by
  cases e <;> (simp [exprSize]; try omega)

/-- Claim C4 counterexample: evaluating a binary op whose left child is
`1 + 1` and whose right child is a variable access returns the expression
entirely unchanged; the constant-only subtree `1 + 1` is not folded to `2` as
the claim states. -/
theorem evaluate_mixed_tree_counterexample :
    PartialEvaluator.evaluate_expression
        (.BinaryOp (.BinaryOp (.Constant 1) .Add (.Constant 1)) .Add
          (.VariableAccess "x")) =
      some (.BinaryOp (.BinaryOp (.Constant 1) .Add (.Constant 1)) .Add
        (.VariableAccess "x")) ∧
    (Expression.BinaryOp (.BinaryOp (.Constant 1) .Add (.Constant 1)) .Add
        (.VariableAccess "x")) ≠
      (Expression.BinaryOp (.Constant 2) .Add (.VariableAccess "x")) :=
  ⟨rfl, by simp⟩

/-- One-step equation of `evaluate_expression` on a unary op. -/
lemma evaluate_expression_unaryOp (op : Operator) (o : Expression) :
    PartialEvaluator.evaluate_expression (.UnaryOp op o) =
      match PartialEvaluator.evaluate_expression o with
      | none => none
      | some operand' =>
        match operand' with
        | .Constant value =>
          match op with
          | .Sub => some (.Constant (wrap64 (-value)))
          | .Add => none
        | _ => some (.UnaryOp op o) := rfl

/-- One-step equation of `evaluate_expression` on a binary op. -/
lemma evaluate_expression_binaryOp (l : Expression) (op : Operator) (r : Expression) :
    PartialEvaluator.evaluate_expression (.BinaryOp l op r) =
      match PartialEvaluator.evaluate_expression l with
      | none => none
      | some left' =>
        match PartialEvaluator.evaluate_expression r with
        | none => none
        | some right' =>
          match left', right' with
          | .Constant lv, .Constant rv =>
            match op with
            | .Sub => some (.Constant (wrap64 (lv - rv)))
            | .Add => some (.Constant (wrap64 (lv + rv)))
          | _, _ => some (.BinaryOp l op r) := rfl

/-- Helper for the amended claim C4: on any expression that contains a
variable access or call, a successful evaluation returns the expression
unchanged. Strong induction on the syntactic size. -/
lemma evaluate_expression_unchanged_aux :
    ∀ n e e', exprSize e ≤ n → containsVarOrCall e = true →
      PartialEvaluator.evaluate_expression e = some e' → e' = e := by
  intro n
  induction n with
  | zero =>
    intro e e' hsz _ _
    have := exprSize_pos e
    omega
  | succ n ih =>
    intro e e' hsz hc h
    cases e with
    | Constant v => simp [containsVarOrCall] at hc
    | VariableAccess name =>
      simp [PartialEvaluator.evaluate_expression] at h
      exact h.symm
    | Call name args =>
      simp [PartialEvaluator.evaluate_expression] at h
      exact h.symm
    | Grouping g =>
      simp [PartialEvaluator.evaluate_expression] at h
      exact h.symm
    | UnaryOp op o =>
      have hco : containsVarOrCall o = true := by
        simpa [containsVarOrCall] using hc
      have hso : exprSize o ≤ n := by
        simp [exprSize] at hsz; omega
      rw [evaluate_expression_unaryOp] at h
      cases ho : PartialEvaluator.evaluate_expression o with
      | none => rw [ho] at h; simp at h
      | some o' =>
        rw [ho] at h
        have heq : o' = o := ih o o' hso hco ho
        rw [heq] at h
        cases o <;> simp [containsVarOrCall] at h hc <;> exact h.symm
    | BinaryOp l op r =>
      have hsl : exprSize l ≤ n := by simp [exprSize] at hsz; omega
      have hsr : exprSize r ≤ n := by simp [exprSize] at hsz; omega
      rw [evaluate_expression_binaryOp] at h
      cases hl : PartialEvaluator.evaluate_expression l with
      | none => rw [hl] at h; simp at h
      | some l' =>
        rw [hl] at h
        cases hr : PartialEvaluator.evaluate_expression r with
        | none => rw [hr] at h; simp at h
        | some r' =>
          rw [hr] at h
          have hcase : containsVarOrCall l = true ∨ containsVarOrCall r = true := by
            simpa [containsVarOrCall, Bool.or_eq_true] using hc
          rcases hcase with hcl | hcr
          · have heq : l' = l := ih l l' hsl hcl hl
            rw [heq] at h
            cases l <;> simp [containsVarOrCall] at h hcl <;> exact h.symm
          · have heq : r' = r := ih r r' hsr hcr hr
            rw [heq] at h
            cases l' <;> cases r <;> simp [containsVarOrCall] at h hcr <;>
              exact h.symm

/-- Claim C4 (amended): when the partial evaluator successfully processes an
expression that contains a variable access or call, it returns the expression
completely unchanged; in particular no constant-only sub-subtree inside it is
folded. -/
theorem evaluate_mixed_tree_unchanged (e e' : Expression)
    (hc : containsVarOrCall e = true)
    (h : PartialEvaluator.evaluate_expression e = some e') : e' = e :=
  evaluate_expression_unchanged_aux (exprSize e) e e' (Nat.le_refl _) hc h

/-- Witness for the amended claim C4 at the counterexample's input. -/
theorem evaluate_mixed_tree_unchanged_witness :
    containsVarOrCall
        (.BinaryOp (.BinaryOp (.Constant 1) .Add (.Constant 1)) .Add
          (.VariableAccess "x")) = true ∧
    PartialEvaluator.evaluate_expression
        (.BinaryOp (.BinaryOp (.Constant 1) .Add (.Constant 1)) .Add
          (.VariableAccess "x")) =
      some (.BinaryOp (.BinaryOp (.Constant 1) .Add (.Constant 1)) .Add
        (.VariableAccess "x")) ∧
    (Expression.BinaryOp (.BinaryOp (.Constant 1) .Add (.Constant 1)) .Add
        (.VariableAccess "x")) =
      (Expression.BinaryOp (.BinaryOp (.Constant 1) .Add (.Constant 1)) .Add
        (.VariableAccess "x")) :=
  ⟨rfl, rfl, evaluate_mixed_tree_unchanged _ _ rfl rfl⟩

/-! ## Claim C8: idempotence of the partial evaluator -/

/-- A successfully evaluated expression is a fixed point of
`evaluate_expression` (the result is either the original expression or a
constant, and the evaluator leaves both unchanged on a second run). -/
lemma evaluate_expression_fix (e e' : Expression)
    (h : PartialEvaluator.evaluate_expression e = some e') :
    PartialEvaluator.evaluate_expression e' = some e' := by
  cases e with
  | Constant v => simp [PartialEvaluator.evaluate_expression] at h; subst h; rfl
  | VariableAccess name =>
    simp [PartialEvaluator.evaluate_expression] at h; subst h; rfl
  | Call name args =>
    simp [PartialEvaluator.evaluate_expression] at h; subst h; rfl
  | Grouping g =>
    simp [PartialEvaluator.evaluate_expression] at h; subst h; rfl
  | UnaryOp op o =>
    rw [evaluate_expression_unaryOp] at h
    cases ho : PartialEvaluator.evaluate_expression o with
    | none => rw [ho] at h; simp at h
    | some o' =>
      rw [ho] at h
      cases o' with
      | Constant v =>
        cases op with
        | Sub => simp at h; subst h; rfl
        | Add => simp at h
      | UnaryOp op2 o2 =>
        simp at h; subst h; rw [evaluate_expression_unaryOp, ho]
      | BinaryOp l2 op2 r2 =>
        simp at h; subst h; rw [evaluate_expression_unaryOp, ho]
      | Call name2 args2 =>
        simp at h; subst h; rw [evaluate_expression_unaryOp, ho]
      | VariableAccess name2 =>
        simp at h; subst h; rw [evaluate_expression_unaryOp, ho]
      | Grouping g2 =>
        simp at h; subst h; rw [evaluate_expression_unaryOp, ho]
  | BinaryOp l op r =>
    rw [evaluate_expression_binaryOp] at h
    cases hl : PartialEvaluator.evaluate_expression l with
    | none => rw [hl] at h; simp at h
    | some l' =>
      rw [hl] at h
      cases hr : PartialEvaluator.evaluate_expression r with
      | none => rw [hr] at h; simp at h
      | some r' =>
        rw [hr] at h
        cases l' <;> cases r' <;>
          first
            | (cases op <;> (simp at h; subst h; rfl))
            | (simp at h; subst h; rw [evaluate_expression_binaryOp, hl, hr])

/-- A successfully evaluated statement is a fixed point of
`evaluate_statement`. -/
lemma evaluate_statement_fix (s s' : Statement)
    (h : PartialEvaluator.evaluate_statement s = some s') :
    PartialEvaluator.evaluate_statement s' = some s' := by
  cases s with
  | Expression e =>
    simp [PartialEvaluator.evaluate_statement, Option.map_eq_some'] at h
    obtain ⟨e', he, rfl⟩ := h
    simp [PartialEvaluator.evaluate_statement, evaluate_expression_fix e e' he]
  | VariableDeclaration name v =>
    simp [PartialEvaluator.evaluate_statement, Option.map_eq_some'] at h
    obtain ⟨e', he, rfl⟩ := h
    simp [PartialEvaluator.evaluate_statement, evaluate_expression_fix v e' he]

/-- A successfully evaluated statement list is a fixed point of the
statement-wise evaluation. -/
lemma evaluate_statements_fix :
    ∀ l l' : List Statement, PartialEvaluator.evaluate_statements l = some l' →
      PartialEvaluator.evaluate_statements l' = some l' := by
  intro l
  induction l with
  | nil =>
    intro l' h
    simp [PartialEvaluator.evaluate_statements] at h
    subst h
    rfl
  | cons a t ih =>
    intro l' h
    cases ha : PartialEvaluator.evaluate_statement a with
    | none => simp [PartialEvaluator.evaluate_statements, ha] at h
    | some b =>
      cases ht : PartialEvaluator.evaluate_statements t with
      | none => simp [PartialEvaluator.evaluate_statements, ha, ht] at h
      | some bs =>
        simp [PartialEvaluator.evaluate_statements, ha, ht] at h
        subst h
        simp [PartialEvaluator.evaluate_statements,
              evaluate_statement_fix a b ha, ih bs ht]

/-- Claim C8: the partial evaluator is idempotent; whenever `evaluate` is
defined (does not panic), running it on its own output returns that output
unchanged, i.e. `evaluate (evaluate p) = evaluate p`. -/
theorem evaluate_idempotent (p q : Module)
    (h : PartialEvaluator.evaluate p = some q) :
    PartialEvaluator.evaluate q = some q := by
  unfold PartialEvaluator.evaluate at h ⊢
  simp [Option.map_eq_some'] at h
  obtain ⟨l', hl, rfl⟩ := h
  simp [Option.map_eq_some']
  exact evaluate_statements_fix _ _ hl

/-- Witness for claim C8 on the module `{ 8 - 3; }`. -/
theorem evaluate_idempotent_witness :
    PartialEvaluator.evaluate
        { statements := [.Expression (.BinaryOp (.Constant 8) .Sub (.Constant 3))] } =
      some { statements := [.Expression (.Constant 5)] } ∧
    PartialEvaluator.evaluate { statements := [.Expression (.Constant 5)] } =
      some { statements := [.Expression (.Constant 5)] } :=
  ⟨rfl,
   evaluate_idempotent
     { statements := [.Expression (.BinaryOp (.Constant 8) .Sub (.Constant 3))] }
     { statements := [.Expression (.Constant 5)] } rfl⟩

/-! ## Claim C10: a call's callee must be a plain variable access -/

/-- Claim C10: whenever a left parenthesis follows a parsed callee expression
that is not a plain variable access, `parse_function_call` aborts fatally
rather than building a `Call` node (every branch after the parenthesis either
fails a required token or reaches the `panic!()` on the callee match). -/
theorem parse_function_call_non_identifier_callee_fatal
    (n : Nat) (p p1 : ParserState) (e : Expression)
    (hu : Parser.parse_unary n p = .ok (e, p1))
    (hne : e.isVariableAccess = false)
    (hpar : (Parser.currentToken p1).map Token.type = some .ParenthesesLeft) :
    Parser.parse_function_call (n + 1) p = .fatal := by
  obtain ⟨tok, hget, htype⟩ :
      ∃ tok, Parser.currentToken p1 = some tok ∧ tok.type = .ParenthesesLeft := by
    cases hct : Parser.currentToken p1 with
    | none => rw [hct] at hpar; simp at hpar
    | some tok =>
      rw [hct] at hpar
      simp at hpar
      exact ⟨tok, rfl, hpar⟩
  obtain ⟨p2, hcim⟩ :
      ∃ p2, Parser.consume_if_matched p1 [.ParenthesesLeft] = some (some tok, p2) :=
    ⟨{ p1 with cursor := p1.cursor + 1 },
     by simp [Parser.consume_if_matched, hget, htype]⟩
  show Parser.parse_exprStep (n + 1) .fnCall p = .fatal
  simp only [Parser.parse_exprStep]
  rw [show Parser.parse_exprStep n .unary p = .ok (e, p1) from hu]
  simp only [hcim]
  split
  · rfl
  · split
    · rfl
    · split
      · rfl
      · cases e <;> simp [Expression.isVariableAccess] at hne ⊢

/-- Witness for claim C10 on the token sequence of `3(x);` (callee is the
number literal `3`). -/
theorem parse_function_call_non_identifier_callee_fatal_witness :
    Parser.parse_unary 10
        { tokens := [⟨.Number, (1, 0), 1, "3"⟩, ⟨.ParenthesesLeft, (1, 1), 1, "("⟩,
                     ⟨.Identifier, (1, 2), 1, "x"⟩, ⟨.ParenthesesRight, (1, 3), 1, ")"⟩,
                     ⟨.Semicolon, (1, 4), 1, ";"⟩, ⟨.Eof, (1, 4), 1, ""⟩],
          cursor := 0 } = .ok (.Constant 3,
        { tokens := [⟨.Number, (1, 0), 1, "3"⟩, ⟨.ParenthesesLeft, (1, 1), 1, "("⟩,
                     ⟨.Identifier, (1, 2), 1, "x"⟩, ⟨.ParenthesesRight, (1, 3), 1, ")"⟩,
                     ⟨.Semicolon, (1, 4), 1, ";"⟩, ⟨.Eof, (1, 4), 1, ""⟩],
          cursor := 1 }) ∧
    Expression.isVariableAccess (.Constant 3) = false ∧
    (Parser.currentToken
        { tokens := [⟨.Number, (1, 0), 1, "3"⟩, ⟨.ParenthesesLeft, (1, 1), 1, "("⟩,
                     ⟨.Identifier, (1, 2), 1, "x"⟩, ⟨.ParenthesesRight, (1, 3), 1, ")"⟩,
                     ⟨.Semicolon, (1, 4), 1, ";"⟩, ⟨.Eof, (1, 4), 1, ""⟩],
          cursor := 1 }).map Token.type = some .ParenthesesLeft ∧
    Parser.parse_function_call 11
        { tokens := [⟨.Number, (1, 0), 1, "3"⟩, ⟨.ParenthesesLeft, (1, 1), 1, "("⟩,
                     ⟨.Identifier, (1, 2), 1, "x"⟩, ⟨.ParenthesesRight, (1, 3), 1, ")"⟩,
                     ⟨.Semicolon, (1, 4), 1, ";"⟩, ⟨.Eof, (1, 4), 1, ""⟩],
          cursor := 0 } = .fatal :=
  ⟨rfl, rfl, rfl,
   parse_function_call_non_identifier_callee_fatal 10 _ _ _ rfl rfl rfl⟩

/-! ## Claim C6: atomicity of the ANF pass output -/

/-- Atoms are in A-normal form. -/
lemma anfExpr_of_isAtom (e : Expression) (h : isAtom e = true) : anfExpr e = true := by
  cases e <;> simp [isAtom, anfExpr] at h ⊢

/-- The ANF guarantee carried by a `transform_step` output: a rewritten
expression is in A-normal form (and an atom when requested), its extra
statements are in A-normal form, and argument results are atoms with
A-normal-form extras. -/
def transformStepAnfOk : RemoveComplexOperandsPass.TIn →
    RemoveComplexOperandsPass.TOut → Prop
  | .expr _ need, .expr e' extras =>
      (need = true → isAtom e' = true) ∧ anfExpr e' = true ∧
      ∀ s ∈ extras, anfStatement s = true
  | .args _, .args results =>
      ∀ pr ∈ results, isAtom pr.1 = true ∧ ∀ s ∈ pr.2, anfStatement s = true
  | _, _ => True

/-- Invariant of `transform_step`: every successful output satisfies the
ANF guarantee. -/
lemma transform_step_anf :
    ∀ n tin k out k', RemoveComplexOperandsPass.transform_step n tin k = .ok (out, k') →
      transformStepAnfOk tin out := by
  intro n
  induction n with
  | zero => intro tin k out k' h; simp [RemoveComplexOperandsPass.transform_step] at h
  | succ n ih =>
    intro tin k out k' h
    cases tin with
    | expr e need =>
      cases e with
      | Constant v =>
        simp [RemoveComplexOperandsPass.transform_step] at h
        obtain ⟨h1, -⟩ := h
        subst h1
        simp [transformStepAnfOk, isAtom, anfExpr]
      | VariableAccess name =>
        simp [RemoveComplexOperandsPass.transform_step] at h
        obtain ⟨h1, -⟩ := h
        subst h1
        simp [transformStepAnfOk, isAtom, anfExpr]
      | UnaryOp op o =>
        simp only [RemoveComplexOperandsPass.transform_step] at h
        cases hro : RemoveComplexOperandsPass.transform_step n (.expr o true) k with
        | fuelOut => simp [hro] at h
        | fatal => simp [hro] at h
        | ok res =>
          obtain ⟨ro, k1⟩ := res
          cases ro with
          | args rs => simp [hro] at h
          | expr o' stmts =>
            simp only [hro] at h
            obtain ⟨hAtom, -, hStmts⟩ := ih (.expr o true) k (.expr o' stmts) k1 hro
            have hAtomO : isAtom o' = true := hAtom rfl
            cases need with
            | false =>
              simp at h
              obtain ⟨h1, -⟩ := h
              subst h1
              exact ⟨by simp, by simp [anfExpr, hAtomO], hStmts⟩
            | true =>
              simp [RemoveComplexOperandsPass.declare_temporary_variable] at h
              obtain ⟨h1, -⟩ := h
              subst h1
              refine ⟨fun _ => by simp [isAtom], by simp [anfExpr], ?_⟩
              intro s hs
              simp only [List.mem_append, List.mem_singleton] at hs
              rcases hs with hs | hs
              · exact hStmts s hs
              · subst hs
                simp [anfStatement, anfExpr, hAtomO]
      | BinaryOp l op r =>
        simp only [RemoveComplexOperandsPass.transform_step] at h
        cases hrl : RemoveComplexOperandsPass.transform_step n (.expr l true) k with
        | fuelOut => simp [hrl] at h
        | fatal => simp [hrl] at h
        | ok res =>
          obtain ⟨rl, k1⟩ := res
          cases rl with
          | args rs => simp [hrl] at h
          | expr l' lstmts =>
            simp only [hrl] at h
            cases hrr : RemoveComplexOperandsPass.transform_step n (.expr r true) k1 with
            | fuelOut => simp [hrr] at h
            | fatal => simp [hrr] at h
            | ok res2 =>
              obtain ⟨rr, k2⟩ := res2
              cases rr with
              | args rs => simp [hrr] at h
              | expr r' rstmts =>
                simp only [hrr] at h
                obtain ⟨hAtomL, -, hStmtsL⟩ := ih (.expr l true) k (.expr l' lstmts) k1 hrl
                obtain ⟨hAtomR, -, hStmtsR⟩ := ih (.expr r true) k1 (.expr r' rstmts) k2 hrr
                have hAtomL' : isAtom l' = true := hAtomL rfl
                have hAtomR' : isAtom r' = true := hAtomR rfl
                cases need with
                | false =>
                  simp at h
                  obtain ⟨h1, -⟩ := h
                  subst h1
                  refine ⟨by simp, by simp [anfExpr, hAtomL', hAtomR'], ?_⟩
                  intro s hs
                  rw [List.mem_append] at hs
                  rcases hs with hs | hs
                  · exact hStmtsL s hs
                  · exact hStmtsR s hs
                | true =>
                  simp [RemoveComplexOperandsPass.declare_temporary_variable] at h
                  obtain ⟨h1, -⟩ := h
                  subst h1
                  refine ⟨fun _ => by simp [isAtom], by simp [anfExpr], ?_⟩
                  intro s hs
                  simp only [List.mem_append, List.mem_singleton] at hs
                  rcases hs with hs | hs | hs
                  · exact hStmtsL s hs
                  · exact hStmtsR s hs
                  · subst hs
                    simp [anfStatement, anfExpr, hAtomL', hAtomR']
      | Call name args =>
        simp only [RemoveComplexOperandsPass.transform_step] at h
        cases hra : RemoveComplexOperandsPass.transform_step n (.args args) k with
        | fuelOut => simp [hra] at h
        | fatal => simp [hra] at h
        | ok res =>
          obtain ⟨ra, k1⟩ := res
          cases ra with
          | expr e' stmts => simp [hra] at h
          | args results =>
            simp only [hra] at h
            have hIH := ih (.args args) k (.args results) k1 hra
            simp [RemoveComplexOperandsPass.declare_temporary_variable] at h
            obtain ⟨h1, -⟩ := h
            subst h1
            refine ⟨fun _ => by simp [isAtom], by simp [anfExpr], ?_⟩
            intro s hs
            simp only [List.mem_append, List.mem_singleton] at hs
            rcases hs with hs | hs
            · rw [List.mem_flatten] at hs
              obtain ⟨ex, hex, hsex⟩ := hs
              rw [List.mem_map] at hex
              obtain ⟨pr, hpr, hprs⟩ := hex
              subst hprs
              exact (hIH pr hpr).2 s hsex
            · subst hs
              simp only [anfStatement, anfExpr]
              rw [List.all_eq_true]
              intro a ha
              rw [List.mem_map] at ha
              obtain ⟨pr, hpr, hpra⟩ := ha
              subst hpra
              exact (hIH pr hpr).1
      | Grouping g => simp [RemoveComplexOperandsPass.transform_step] at h
    | args l =>
      cases l with
      | nil =>
        simp [RemoveComplexOperandsPass.transform_step] at h
        obtain ⟨h1, -⟩ := h
        subst h1
        simp [transformStepAnfOk]
      | cons a rest =>
        simp only [RemoveComplexOperandsPass.transform_step] at h
        cases hra : RemoveComplexOperandsPass.transform_step n (.expr a true) k with
        | fuelOut => simp [hra] at h
        | fatal => simp [hra] at h
        | ok res =>
          obtain ⟨ra, k1⟩ := res
          cases ra with
          | args rs => simp [hra] at h
          | expr a' astmts =>
            simp only [hra] at h
            cases hrr : RemoveComplexOperandsPass.transform_step n (.args rest) k1 with
            | fuelOut => simp [hrr] at h
            | fatal => simp [hrr] at h
            | ok res2 =>
              obtain ⟨rr, k2⟩ := res2
              cases rr with
              | expr e' stmts => simp [hrr] at h
              | args results =>
                simp only [hrr] at h
                obtain ⟨hAtomA, -, hStmtsA⟩ := ih (.expr a true) k (.expr a' astmts) k1 hra
                have hRest := ih (.args rest) k1 (.args results) k2 hrr
                simp at h
                obtain ⟨h1, -⟩ := h
                subst h1
                intro pr hpr
                rw [List.mem_cons] at hpr
                rcases hpr with hpr | hpr
                · subst hpr
                  exact ⟨hAtomA rfl, hStmtsA⟩
                · exact hRest pr hpr

/-- Inversion of `transform_expression` back to `transform_step`. -/
lemma transform_expression_inv (e : Expression) (need : Bool) (k : Nat)
    (e' : Expression) (extras : List Statement) (k' : Nat)
    (h : RemoveComplexOperandsPass.transform_expression e need k = .ok ((e', extras), k')) :
    RemoveComplexOperandsPass.transform_step (exprSize e + 1) (.expr e need) k =
      .ok (.expr e' extras, k') := by
  unfold RemoveComplexOperandsPass.transform_expression at h
  cases hs : RemoveComplexOperandsPass.transform_step (exprSize e + 1) (.expr e need) k with
  | fuelOut => simp [hs] at h
  | fatal => simp [hs] at h
  | ok res =>
    obtain ⟨ro, ks⟩ := res
    cases ro with
    | args rs => simp [hs] at h
    | expr e2 ex2 =>
      simp [hs] at h
      obtain ⟨⟨he2, hex2⟩, hk⟩ := h
      subst he2; subst hex2; subst hk
      rfl

/-- The rewritten expression and extra statements of a successful
`transform_expression` are in A-normal form (and the expression is an atom
when requested). -/
lemma transform_expression_anf (e : Expression) (need : Bool) (k : Nat)
    (e' : Expression) (extras : List Statement) (k' : Nat)
    (h : RemoveComplexOperandsPass.transform_expression e need k = .ok ((e', extras), k')) :
    (need = true → isAtom e' = true) ∧ anfExpr e' = true ∧
      ∀ s ∈ extras, anfStatement s = true := by
  have hs := transform_expression_inv e need k e' extras k' h
  simpa [transformStepAnfOk] using transform_step_anf _ _ _ _ _ hs

/-- The statements produced by `transform_statement` are all in A-normal
form. -/
lemma transform_statement_anf (s : Statement) (k : Nat) (out : List Statement)
    (k' : Nat) (h : RemoveComplexOperandsPass.transform_statement s k = .ok (out, k')) :
    ∀ t ∈ out, anfStatement t = true := by
  cases s with
  | Expression e => simp [RemoveComplexOperandsPass.transform_statement] at h
  | VariableDeclaration name init =>
    simp only [RemoveComplexOperandsPass.transform_statement] at h
    cases hte : RemoveComplexOperandsPass.transform_expression init false k with
    | fuelOut => simp [hte] at h
    | fatal => simp [hte] at h
    | ok res =>
      obtain ⟨⟨e', extras⟩, k1⟩ := res
      simp only [hte] at h
      simp at h
      obtain ⟨h1, -⟩ := h
      subst h1
      obtain ⟨-, hAnf, hStmts⟩ := transform_expression_anf init false k e' extras k1 hte
      intro t ht
      simp only [List.mem_append, List.mem_singleton] at ht
      rcases ht with ht | ht
      · exact hStmts t ht
      · subst ht
        simp [anfStatement, hAnf]

/-- All statements produced by the statement loop of the ANF pass are in
A-normal form. -/
lemma run_statements_anf :
    ∀ l k out k', RemoveComplexOperandsPass.run_statements l k = .ok (out, k') →
      ∀ t ∈ out, anfStatement t = true := by
  intro l
  induction l with
  | nil =>
    intro k out k' h
    simp [RemoveComplexOperandsPass.run_statements] at h
    obtain ⟨h1, -⟩ := h
    subst h1
    simp
  | cons s rest ih =>
    intro k out k' h
    simp only [RemoveComplexOperandsPass.run_statements] at h
    cases hts : RemoveComplexOperandsPass.transform_statement s k with
    | fuelOut => rw [hts] at h; simp at h
    | fatal => rw [hts] at h; simp at h
    | ok res =>
      obtain ⟨stmts1, k1⟩ := res
      simp only [hts] at h
      cases hrest : RemoveComplexOperandsPass.run_statements rest k1 with
      | fuelOut => rw [hrest] at h; simp at h
      | fatal => rw [hrest] at h; simp at h
      | ok res2 =>
        obtain ⟨stmts2, k2⟩ := res2
        simp only [hrest] at h
        simp at h
        obtain ⟨h1, -⟩ := h
        subst h1
        intro t ht
        rw [List.mem_append] at ht
        rcases ht with ht | ht
        · exact transform_statement_anf s k stmts1 k1 hts t ht
        · exact ih k1 stmts2 k2 hrest t ht

/-- Claim C6: whenever the ANF pass completes on a module, every operand of a
unary op, every operand of a binary op, and every call argument in the
resulting module is an atom (a constant or a variable access). -/
theorem anf_pass_output_atomic (m m' : Module)
    (h : RemoveComplexOperandsPass.run m = .ok m') : anfModule m' = true := by
  unfold RemoveComplexOperandsPass.run at h
  cases hrs : RemoveComplexOperandsPass.run_statements m.statements 0 with
  | fuelOut => rw [hrs] at h; simp at h
  | fatal => rw [hrs] at h; simp at h
  | ok res =>
    obtain ⟨stmts, k⟩ := res
    rw [hrs] at h
    simp at h
    subst h
    unfold anfModule
    rw [List.all_eq_true]
    intro s hs
    exact run_statements_anf m.statements 0 stmts k hrs s hs

/-- Witness for claim C6 on the nested-calls module of the pass's own test
(`let test = (get_number() + get_number_2(get_number_3())) - 3;`). -/
theorem anf_pass_output_atomic_witness :
    RemoveComplexOperandsPass.run
        { statements := [.VariableDeclaration "test"
            (.BinaryOp
              (.BinaryOp (.Call "get_number" []) .Add
                (.Call "get_number_2" [.Call "get_number_3" []]))
              .Sub (.Constant 3))] } =
      .ok { statements := [
        .VariableDeclaration "tmp_0" (.Call "get_number" []),
        .VariableDeclaration "tmp_1" (.Call "get_number_3" []),
        .VariableDeclaration "tmp_2" (.Call "get_number_2" [.VariableAccess "tmp_1"]),
        .VariableDeclaration "tmp_3"
          (.BinaryOp (.VariableAccess "tmp_0") .Add (.VariableAccess "tmp_2")),
        .VariableDeclaration "test"
          (.BinaryOp (.VariableAccess "tmp_3") .Sub (.Constant 3))] } ∧
    anfModule { statements := [
        .VariableDeclaration "tmp_0" (.Call "get_number" []),
        .VariableDeclaration "tmp_1" (.Call "get_number_3" []),
        .VariableDeclaration "tmp_2" (.Call "get_number_2" [.VariableAccess "tmp_1"]),
        .VariableDeclaration "tmp_3"
          (.BinaryOp (.VariableAccess "tmp_0") .Add (.VariableAccess "tmp_2")),
        .VariableDeclaration "test"
          (.BinaryOp (.VariableAccess "tmp_3") .Sub (.Constant 3))] } = true := by
  have hrun : RemoveComplexOperandsPass.run
      { statements := [.VariableDeclaration "test"
          (.BinaryOp
            (.BinaryOp (.Call "get_number" []) .Add
              (.Call "get_number_2" [.Call "get_number_3" []]))
            .Sub (.Constant 3))] } =
    .ok { statements := [
      .VariableDeclaration "tmp_0" (.Call "get_number" []),
      .VariableDeclaration "tmp_1" (.Call "get_number_3" []),
      .VariableDeclaration "tmp_2" (.Call "get_number_2" [.VariableAccess "tmp_1"]),
      .VariableDeclaration "tmp_3"
        (.BinaryOp (.VariableAccess "tmp_0") .Add (.VariableAccess "tmp_2")),
      .VariableDeclaration "test"
        (.BinaryOp (.VariableAccess "tmp_3") .Sub (.Constant 3))] } := by
    simp [RemoveComplexOperandsPass.run, RemoveComplexOperandsPass.run_statements,
          RemoveComplexOperandsPass.transform_statement,
          RemoveComplexOperandsPass.transform_expression, exprSize, exprSizeArgs,
          RemoveComplexOperandsPass.transform_step,
          RemoveComplexOperandsPass.declare_temporary_variable]
    decide
  exact ⟨hrun, anf_pass_output_atomic _ _ hrun⟩

/-! ## Claim C9: stack reservation and 16-byte alignment -/

/-- Clearing the low four bits with the 32-bit mask `!15` equals rounding
down to a multiple of 16, for values below `2 ^ 32`. -/
lemma land_mask32 (x : Nat) (hx : x < 2 ^ 32) :
    x &&& 0xFFFFFFF0 = x / 16 * 16 := by
  have hm : (0xFFFFFFF0 : Nat) = (2 ^ 28 - 1) <<< 4 := by
    norm_num [Nat.shiftLeft_eq]
  have h16 : x / 16 * 16 = (x >>> 4) <<< 4 := by
    norm_num [Nat.shiftLeft_eq, Nat.shiftRight_eq_div_pow]
  rw [hm, h16]
  apply Nat.eq_of_testBit_eq
  intro i
  rw [Nat.testBit_and, Nat.testBit_shiftLeft, Nat.testBit_shiftLeft,
      Nat.testBit_shiftRight, Nat.testBit_two_pow_sub_one]
  by_cases h4 : 4 ≤ i
  · have h44 : 4 + (i - 4) = i := by omega
    rw [h44]
    by_cases h32 : i < 32
    · simp [h4, show i - 4 < 28 by omega]
    · have hb : x.testBit i = false :=
        Nat.testBit_lt_two_pow
          (lt_of_lt_of_le hx (Nat.pow_le_pow_right (by norm_num) (by omega)))
      simp [hb, h4, show ¬ i - 4 < 28 by omega]
  · simp [h4]

/-- A string whose first character is not `s` is not a `sub rsp` line. -/
lemma isSubRspLine_false_of_head (s : String)
    (hc : s.data.head? ≠ some 's') : isSubRspLine s = false := by
  apply decide_eq_false
  intro heq
  apply hc
  cases hd : s.data with
  | nil =>
    rw [hd] at heq
    exact absurd heq (by decide)
  | cons a t =>
    rw [hd] at heq
    have h1 : (List.take 8 (a :: t)).head? = some a := rfl
    rw [heq] at h1
    have h2 : ("sub rsp,".data).head? = some 's' := rfl
    rw [h2] at h1
    exact h1.symm

/-- A `sub rsp, _` line is recognized as such. -/
lemma isSubRspLine_subrsp (x : String) : isSubRspLine ("sub rsp, " ++ x) = true := by
  apply decide_eq_true
  rw [String.data_append, List.take_append_of_le_length (by decide)]
  decide

/-- Store lines are not `sub rsp` lines. -/
lemma not_subrsp_store (x y : String) :
    isSubRspLine ("mov dword [rbp - " ++ x ++ "], " ++ y) = false := by
  apply isSubRspLine_false_of_head
  rw [show ("mov dword [rbp - " ++ x ++ "], " ++ y).data.head? = some 'm' from rfl]
  decide

/-- Argument-register loads are not `sub rsp` lines. -/
lemma not_subrsp_rdi (y : String) :
    isSubRspLine ("mov dword rdi, " ++ y) = false := by
  apply isSubRspLine_false_of_head
  rw [show ("mov dword rdi, " ++ y).data.head? = some 'm' from rfl]
  decide

/-- Scratch-register loads are not `sub rsp` lines. -/
lemma not_subrsp_rax (x : String) :
    isSubRspLine ("mov dword rax, [rbp - " ++ x ++ "]") = false := by
  apply isSubRspLine_false_of_head
  rw [show ("mov dword rax, [rbp - " ++ x ++ "]").data.head? = some 'm' from rfl]
  decide

/-- The register-to-register move is not a `sub rsp` line. -/
lemma not_subrsp_rdi_rax : isSubRspLine "mov dword rdi, rax" = false := by decide

/-- Call lines are not `sub rsp` lines. -/
lemma not_subrsp_call (nm : String) : isSubRspLine ("call " ++ nm) = false := by
  apply isSubRspLine_false_of_head
  rw [show ("call " ++ nm).data.head? = some 'c' from rfl]
  decide

/-- The lines emitted for a single statement contain no `sub rsp` line (they
are all `mov` or `call` lines). -/
lemma emit_statement_no_subrsp (s : Statement) (env : X86AssemblyCodegen.Environment)
    (lines : List String) (env' : X86AssemblyCodegen.Environment)
    (h : X86AssemblyCodegen.emit_statement s env = .ok (lines, env')) :
    lines.filter isSubRspLine = [] := by
  cases s with
  | VariableDeclaration name value =>
    simp only [X86AssemblyCodegen.emit_statement,
               X86AssemblyCodegen.emit_variable_declaration] at h
    cases hoff : (env.allocate_variable name).get_variable_stack_offset name with
    | none => simp [hoff] at h
    | some off =>
      simp only [hoff] at h
      cases value with
      | Constant v =>
        simp at h
        obtain ⟨h1, -⟩ := h
        subst h1
        simp [List.filter, not_subrsp_store]
      | UnaryOp op o => simp at h
      | BinaryOp l op r => simp at h
      | Call n2 a2 => simp at h
      | VariableAccess m => simp at h
      | Grouping g => simp at h
  | Expression e =>
    cases e with
    | Call name args =>
      simp only [X86AssemblyCodegen.emit_statement, X86AssemblyCodegen.emit_expression,
                 X86AssemblyCodegen.emit_function_call] at h
      by_cases hlen : args.length = 1
      · rw [if_pos hlen] at h
        cases hget : args[0]? with
        | none => simp [hget] at h
        | some arg =>
          simp only [hget] at h
          cases arg with
          | Constant v =>
            simp at h
            obtain ⟨h1, -⟩ := h
            subst h1
            simp [List.filter, not_subrsp_rdi, not_subrsp_call]
          | VariableAccess m =>
            cases hoff : env.get_variable_stack_offset m with
            | none => simp [hoff] at h
            | some off =>
              simp only [hoff] at h
              simp at h
              obtain ⟨h1, -⟩ := h
              subst h1
              simp [List.filter, not_subrsp_rax, not_subrsp_rdi_rax, not_subrsp_call]
          | UnaryOp op o => simp at h
          | BinaryOp l op r => simp at h
          | Call n2 a2 => simp at h
          | Grouping g => simp at h
      · rw [if_neg hlen] at h
        exact absurd h (by simp)
    | Constant v => simp [X86AssemblyCodegen.emit_statement,
        X86AssemblyCodegen.emit_expression] at h
    | VariableAccess m => simp [X86AssemblyCodegen.emit_statement,
        X86AssemblyCodegen.emit_expression] at h
    | UnaryOp op o => simp [X86AssemblyCodegen.emit_statement,
        X86AssemblyCodegen.emit_expression] at h
    | BinaryOp l op r => simp [X86AssemblyCodegen.emit_statement,
        X86AssemblyCodegen.emit_expression] at h
    | Grouping g => simp [X86AssemblyCodegen.emit_statement,
        X86AssemblyCodegen.emit_expression] at h

/-- The statement loop of the code generator emits no `sub rsp` line. -/
lemma emit_statements_no_subrsp :
    ∀ (l : List Statement) (env : X86AssemblyCodegen.Environment)
      (lines : List String) (env' : X86AssemblyCodegen.Environment),
      X86AssemblyCodegen.emit_statements l env = .ok (lines, env') →
      lines.filter isSubRspLine = [] := by
  intro l
  induction l with
  | nil =>
    intro env lines env' h
    simp [X86AssemblyCodegen.emit_statements] at h
    obtain ⟨h1, -⟩ := h
    subst h1
    rfl
  | cons s rest ih =>
    intro env lines env' h
    simp only [X86AssemblyCodegen.emit_statements] at h
    cases hes : X86AssemblyCodegen.emit_statement s env with
    | fuelOut => simp [hes] at h
    | fatal => simp [hes] at h
    | ok res =>
      obtain ⟨lines1, env1⟩ := res
      simp only [hes] at h
      cases hrest : X86AssemblyCodegen.emit_statements rest env1 with
      | fuelOut => simp [hrest] at h
      | fatal => simp [hrest] at h
      | ok res2 =>
        obtain ⟨lines2, env2⟩ := res2
        simp only [hrest] at h
        simp at h
        obtain ⟨h1, -⟩ := h
        subst h1
        rw [List.filter_append, emit_statement_no_subrsp s env lines1 env1 hes,
            ih env1 lines2 env2 hrest]
        rfl

/-- Structure of a successful `generate` run. -/
lemma generate_inv (m : Module) (out : List String)
    (h : X86AssemblyCodegen.generate m = .ok out) :
    ∃ lines env,
      X86AssemblyCodegen.emit_statements m.statements
        X86AssemblyCodegen.Environment.default = .ok (lines, env) ∧
      out = X86AssemblyCodegen.emit_prelude ++
        X86AssemblyCodegen.emit_stack_space_allocation m.statements ++
        lines ++ X86AssemblyCodegen.emit_epilogue := by
  unfold X86AssemblyCodegen.generate at h
  cases hes : X86AssemblyCodegen.emit_statements m.statements
      X86AssemblyCodegen.Environment.default with
  | fuelOut => simp [hes] at h
  | fatal => simp [hes] at h
  | ok res =>
    obtain ⟨lines, env⟩ := res
    simp only [hes] at h
    simp at h
    exact ⟨lines, env, rfl, by simpa [List.append_assoc] using h.symm⟩

/-- The wrapping `u32` sum of `emit_stack_space_allocation` as a function of
the number of variable declarations. -/
lemma bytesNeeded_foldl :
    ∀ (l : List Statement) (acc : Nat), acc < 2 ^ 32 →
      l.foldl
        (fun acc s =>
          match s with
          | .Expression _ => acc
          | .VariableDeclaration _ _ => (acc + 4) % 2 ^ 32)
        acc = (acc + 4 * numVarDecls l) % 2 ^ 32 := by
  intro l
  induction l with
  | nil =>
    intro acc hacc
    simp [numVarDecls]
    omega
  | cons s rest ih =>
    intro acc hacc
    cases s with
    | Expression e =>
      simp only [List.foldl_cons]
      rw [ih acc hacc]
      simp [numVarDecls, List.countP_cons, isVarDecl]
    | VariableDeclaration nm v =>
      simp only [List.foldl_cons]
      rw [ih ((acc + 4) % 2 ^ 32) (Nat.mod_lt _ (by norm_num)), Nat.mod_add_mod]
      have hcount : numVarDecls (Statement.VariableDeclaration nm v :: rest) =
          numVarDecls rest + 1 := by
        simp [numVarDecls, List.countP_cons, isVarDecl]
      rw [hcount]
      congr 1
      ring

/-- `bytesNeeded` is the wrapped value of four bytes per declaration. -/
lemma bytesNeeded_eq (l : List Statement) :
    X86AssemblyCodegen.bytesNeeded l = 4 * numVarDecls l % 2 ^ 32 := by
  unfold X86AssemblyCodegen.bytesNeeded
  rw [bytesNeeded_foldl l 0 (by norm_num)]
  simp

/-- Mapping over a successful result. -/
lemma Res_map_ok {α β : Type} (f : α → β) (a : α) :
    Res.map f (.ok a) = .ok (f a) := rfl

/-- Equation of `generate` in terms of a successful statement emission. -/
lemma generate_eq (m : Module) (lines : List String)
    (env : X86AssemblyCodegen.Environment)
    (hes : X86AssemblyCodegen.emit_statements m.statements
      X86AssemblyCodegen.Environment.default = .ok (lines, env)) :
    X86AssemblyCodegen.generate m =
      .ok (X86AssemblyCodegen.emit_prelude ++
        X86AssemblyCodegen.emit_stack_space_allocation m.statements ++
        lines ++ X86AssemblyCodegen.emit_epilogue) := by
  unfold X86AssemblyCodegen.generate
  simp only [hes]

/-- Claim C9 counterexample: on a module with `2 ^ 30` variable declarations
the 32-bit `bytes_needed` sum wraps to zero, so the code generator emits no
`sub rsp` line at all even though the declaration count is positive; the
claimed operand `(4 * N + 15) & !15` would be `2 ^ 32`. -/
theorem stack_reservation_counterexample :
    0 < numVarDecls
        (List.replicate (2 ^ 30) (Statement.VariableDeclaration "x" (.Constant 0))) ∧
    X86AssemblyCodegen.emit_stack_space_allocation
        (List.replicate (2 ^ 30) (Statement.VariableDeclaration "x" (.Constant 0))) =
      [] ∧
    Res.map (fun out => out.filter isSubRspLine)
        (X86AssemblyCodegen.generate
          { statements :=
              List.replicate (2 ^ 30) (Statement.VariableDeclaration "x" (.Constant 0)) }) =
      .ok [] := by
  have hcount : numVarDecls
      (List.replicate (2 ^ 30) (Statement.VariableDeclaration "x" (.Constant 0))) =
      2 ^ 30 := by
    unfold numVarDecls
    rw [List.countP_replicate]
    norm_num [isVarDecl]
  have hbytes : X86AssemblyCodegen.bytesNeeded
      (List.replicate (2 ^ 30) (Statement.VariableDeclaration "x" (.Constant 0))) = 0 := by
    rw [bytesNeeded_eq, hcount]
    norm_num
  have halloc : X86AssemblyCodegen.emit_stack_space_allocation
      (List.replicate (2 ^ 30) (Statement.VariableDeclaration "x" (.Constant 0))) = [] := by
    unfold X86AssemblyCodegen.emit_stack_space_allocation
    rw [hbytes]
    rfl
  have hemit : ∀ (n : Nat) (env : X86AssemblyCodegen.Environment),
      ∃ lines env',
        X86AssemblyCodegen.emit_statements
          (List.replicate n (Statement.VariableDeclaration "x" (.Constant 0))) env =
          .ok (lines, env') := by
    intro n
    induction n with
    | zero => intro env; exact ⟨[], env, rfl⟩
    | succ n ih =>
      intro env
      obtain ⟨lines, env', hrec⟩ := ih (env.allocate_variable "x")
      refine ⟨["mov dword [rbp - " ++ toString ((env.stack_offset + 4) % 2 ^ 32) ++
        "], " ++ toString (0 : Int)] ++ lines, env', ?_⟩
      rw [List.replicate_succ]
      simp only [X86AssemblyCodegen.emit_statements]
      have hstep : X86AssemblyCodegen.emit_statement
          (Statement.VariableDeclaration "x" (.Constant 0)) env =
          .ok (["mov dword [rbp - " ++
            toString ((env.stack_offset + 4) % 2 ^ 32) ++ "], " ++ toString (0 : Int)],
            env.allocate_variable "x") := by
        simp [X86AssemblyCodegen.emit_statement,
              X86AssemblyCodegen.emit_variable_declaration,
              X86AssemblyCodegen.Environment.allocate_variable,
              X86AssemblyCodegen.Environment.get_variable_stack_offset, List.lookup]
      rw [hstep]
      simp only [hrec]
  obtain ⟨lines, env', hes⟩ := hemit (2 ^ 30) X86AssemblyCodegen.Environment.default
  have hgen := generate_eq
    { statements :=
        List.replicate (2 ^ 30) (Statement.VariableDeclaration "x" (.Constant 0)) }
    lines env' hes
  rw [halloc] at hgen
  refine ⟨by rw [hcount]; norm_num, halloc, ?_⟩
  rw [hgen, Res_map_ok]
  rw [List.filter_append, List.filter_append, List.filter_append,
      emit_statements_no_subrsp _ _ _ _ hes]
  decide

/-- Claim C9 (amended): for every module whose declaration count `N`
satisfies `4 * N + 15 < 2 ^ 32` (no 32-bit overflow), a successful `generate`
emits exactly one `sub rsp, A` line when `N > 0`, with
`A = (4 * N + 15) & !15`, so `A` is a multiple of 16 and `A ≥ 4 * N`; when
`N = 0` no `sub rsp` line is emitted. -/
theorem stack_reservation_aligned (m : Module) (out : List String)
    (hN : 4 * numVarDecls m.statements + 15 < 2 ^ 32)
    (hgen : X86AssemblyCodegen.generate m = .ok out) :
    (0 < numVarDecls m.statements →
      out.filter isSubRspLine =
        ["sub rsp, " ++ toString ((4 * numVarDecls m.statements + 15) &&& 0xFFFFFFF0)] ∧
      ((4 * numVarDecls m.statements + 15) &&& 0xFFFFFFF0) % 16 = 0 ∧
      4 * numVarDecls m.statements ≤
        (4 * numVarDecls m.statements + 15) &&& 0xFFFFFFF0) ∧
    (numVarDecls m.statements = 0 → out.filter isSubRspLine = []) := by
  obtain ⟨lines, env, hes, hout⟩ := generate_inv m out hgen
  subst hout
  have hpre : (X86AssemblyCodegen.emit_prelude).filter isSubRspLine = [] := by decide
  have hepi : (X86AssemblyCodegen.emit_epilogue).filter isSubRspLine = [] := by decide
  have hlines := emit_statements_no_subrsp _ _ _ _ hes
  have hbytes := bytesNeeded_eq m.statements
  constructor
  · intro hpos
    have hlt : 4 * numVarDecls m.statements < 2 ^ 32 := by omega
    have hb4 : X86AssemblyCodegen.bytesNeeded m.statements =
        4 * numVarDecls m.statements := by
      rw [hbytes, Nat.mod_eq_of_lt hlt]
    have hstack : X86AssemblyCodegen.emit_stack_space_allocation m.statements =
        ["sub rsp, " ++
          toString ((4 * numVarDecls m.statements + 15) &&& 0xFFFFFFF0)] := by
      unfold X86AssemblyCodegen.emit_stack_space_allocation
      rw [hb4]
      have h40 : 0 < 4 * numVarDecls m.statements := by omega
      simp [h40]
    have hmask := land_mask32 (4 * numVarDecls m.statements + 15) hN
    have hdm := Nat.div_add_mod (4 * numVarDecls m.statements + 15) 16
    have hml : (4 * numVarDecls m.statements + 15) % 16 < 16 :=
      Nat.mod_lt _ (by norm_num)
    refine ⟨?_, ?_, ?_⟩
    · simp only [List.filter_append, hpre, hepi, hlines, hstack]
      simp [isSubRspLine_subrsp]
    · rw [hmask]
      simp [Nat.mul_mod_left]
    · rw [hmask]
      omega
  · intro hzero
    have hstack : X86AssemblyCodegen.emit_stack_space_allocation m.statements = [] := by
      unfold X86AssemblyCodegen.emit_stack_space_allocation
      rw [hbytes, hzero]
      simp
    simp only [List.filter_append, hpre, hepi, hlines, hstack]
    rfl

/-- Witness for the amended claim C9 on the three-declaration module of the
code generator's own test (`foo = 4; bar = 42; baz = 127;`). -/
theorem stack_reservation_aligned_witness :
    (4 * numVarDecls [Statement.VariableDeclaration "foo" (.Constant 4),
        Statement.VariableDeclaration "bar" (.Constant 42),
        Statement.VariableDeclaration "baz" (.Constant 127)] + 15 < 2 ^ 32 ∧
      X86AssemblyCodegen.generate
        { statements := [.VariableDeclaration "foo" (.Constant 4),
            .VariableDeclaration "bar" (.Constant 42),
            .VariableDeclaration "baz" (.Constant 127)] } =
        .ok ["global main", "extern print_int", "section .text", "main:",
             "push rbp", "mov rbp, rsp", "sub rsp, 16",
             "mov dword [rbp - 4], 4", "mov dword [rbp - 8], 42",
             "mov dword [rbp - 12], 127",
             "mov rsp, rbp", "pop rbp", "xor rax, rax", "ret"]) ∧
    ((0 < numVarDecls [Statement.VariableDeclaration "foo" (.Constant 4),
        Statement.VariableDeclaration "bar" (.Constant 42),
        Statement.VariableDeclaration "baz" (.Constant 127)] →
      (["global main", "extern print_int", "section .text", "main:",
        "push rbp", "mov rbp, rsp", "sub rsp, 16",
        "mov dword [rbp - 4], 4", "mov dword [rbp - 8], 42",
        "mov dword [rbp - 12], 127",
        "mov rsp, rbp", "pop rbp", "xor rax, rax", "ret"] : List String).filter
          isSubRspLine =
        ["sub rsp, " ++ toString ((4 * numVarDecls
          [Statement.VariableDeclaration "foo" (.Constant 4),
           Statement.VariableDeclaration "bar" (.Constant 42),
           Statement.VariableDeclaration "baz" (.Constant 127)] + 15) &&& 0xFFFFFFF0)] ∧
      ((4 * numVarDecls [Statement.VariableDeclaration "foo" (.Constant 4),
          Statement.VariableDeclaration "bar" (.Constant 42),
          Statement.VariableDeclaration "baz" (.Constant 127)] + 15) &&& 0xFFFFFFF0) %
          16 = 0 ∧
      4 * numVarDecls [Statement.VariableDeclaration "foo" (.Constant 4),
          Statement.VariableDeclaration "bar" (.Constant 42),
          Statement.VariableDeclaration "baz" (.Constant 127)] ≤
        (4 * numVarDecls [Statement.VariableDeclaration "foo" (.Constant 4),
            Statement.VariableDeclaration "bar" (.Constant 42),
            Statement.VariableDeclaration "baz" (.Constant 127)] + 15) &&& 0xFFFFFFF0) ∧
      (numVarDecls [Statement.VariableDeclaration "foo" (.Constant 4),
          Statement.VariableDeclaration "bar" (.Constant 42),
          Statement.VariableDeclaration "baz" (.Constant 127)] = 0 →
        (["global main", "extern print_int", "section .text", "main:",
          "push rbp", "mov rbp, rsp", "sub rsp, 16",
          "mov dword [rbp - 4], 4", "mov dword [rbp - 8], 42",
          "mov dword [rbp - 12], 127",
          "mov rsp, rbp", "pop rbp", "xor rax, rax", "ret"] : List String).filter
            isSubRspLine = [])) :=
  ⟨⟨by decide, rfl⟩,
   stack_reservation_aligned
     { statements := [.VariableDeclaration "foo" (.Constant 4),
         .VariableDeclaration "bar" (.Constant 42),
         .VariableDeclaration "baz" (.Constant 127)] }
     ["global main", "extern print_int", "section .text", "main:",
      "push rbp", "mov rbp, rsp", "sub rsp, 16",
      "mov dword [rbp - 4], 4", "mov dword [rbp - 8], 42",
      "mov dword [rbp - 12], 127",
      "mov rsp, rbp", "pop rbp", "xor rax, rax", "ret"]
     (by decide) rfl⟩

/-! ## Claim C7: monotonicity of recorded token start positions -/

/-- The string-consuming loop preserves the source and the token start and
never moves the cursor backwards. -/
lemma consume_string_loop_spec :
    ∀ n t b t', Tokenizer.consume_string_loop n t = .ok (b, t') →
      t'.source = t.source ∧ t.cursor ≤ t'.cursor ∧
      t'.current_token_start = t.current_token_start := by
  intro n
  induction n with
  | zero => intro t b t' h; simp [Tokenizer.consume_string_loop] at h
  | succ n ih =>
    intro t b t' h
    simp only [Tokenizer.consume_string_loop] at h
    by_cases hend : t.is_at_end
    · rw [if_pos hend] at h
      simp at h
      obtain ⟨-, h2⟩ := h
      subst h2
      exact ⟨rfl, Nat.le_refl _, rfl⟩
    · rw [if_neg hend] at h
      by_cases hq : (t.consume_char).1 = '"'
      · rw [if_pos hq] at h
        simp at h
        obtain ⟨-, h2⟩ := h
        subst h2
        exact ⟨rfl, Nat.le_succ _, rfl⟩
      · rw [if_neg hq] at h
        obtain ⟨h1, h2, h3⟩ := ih _ _ _ h
        refine ⟨h1, ?_, h3⟩
        have : (t.consume_char).2.cursor = t.cursor + 1 := rfl
        omega

/-- The digit-consuming loop preserves the source and the token start and
never moves the cursor backwards. -/
lemma consume_number_loop_spec :
    ∀ n t t', Tokenizer.consume_number_loop n t = .ok t' →
      t'.source = t.source ∧ t.cursor ≤ t'.cursor ∧
      t'.current_token_start = t.current_token_start := by
  intro n
  induction n with
  | zero => intro t t' h; simp [Tokenizer.consume_number_loop] at h
  | succ n ih =>
    intro t t' h
    simp only [Tokenizer.consume_number_loop] at h
    by_cases hend : t.is_at_end
    · rw [if_pos hend] at h
      simp at h
      subst h
      exact ⟨rfl, Nat.le_refl _, rfl⟩
    · rw [if_neg hend] at h
      by_cases hd : (t.source.getD t.cursor (Char.ofNat 0)).isDigit
      · rw [if_pos hd] at h
        obtain ⟨h1, h2, h3⟩ := ih _ _ h
        refine ⟨h1, ?_, h3⟩
        have : (t.consume_char).2.cursor = t.cursor + 1 := rfl
        omega
      · rw [if_neg hd] at h
        simp at h
        subst h
        exact ⟨rfl, Nat.le_refl _, rfl⟩

/-- The identifier-consuming loop preserves the source and the token start
and never moves the cursor backwards. -/
lemma consume_identifier_loop_spec :
    ∀ n t t', Tokenizer.consume_identifier_loop n t = .ok t' →
      t'.source = t.source ∧ t.cursor ≤ t'.cursor ∧
      t'.current_token_start = t.current_token_start := by
  intro n
  induction n with
  | zero => intro t t' h; simp [Tokenizer.consume_identifier_loop] at h
  | succ n ih =>
    intro t t' h
    simp only [Tokenizer.consume_identifier_loop] at h
    by_cases hend : t.is_at_end
    · rw [if_pos hend] at h
      simp at h
      subst h
      exact ⟨rfl, Nat.le_refl _, rfl⟩
    · rw [if_neg hend] at h
      by_cases hd : Tokenizer.isIdentChar (t.source.getD t.cursor (Char.ofNat 0))
      · rw [if_pos hd] at h
        obtain ⟨h1, h2, h3⟩ := ih _ _ h
        refine ⟨h1, ?_, h3⟩
        have : (t.consume_char).2.cursor = t.cursor + 1 := rfl
        omega
      · rw [if_neg hd] at h
        simp at h
        subst h
        exact ⟨rfl, Nat.le_refl _, rfl⟩

/-- `match_next_char` preserves the source and the token start and advances
the cursor by at most one. -/
lemma match_next_char_spec (t : Tokenizer) (w : Char) (b : Bool) (t' : Tokenizer)
    (h : t.match_next_char w = some (b, t')) :
    t'.source = t.source ∧ t.cursor ≤ t'.cursor ∧
    t'.current_token_start = t.current_token_start := by
  unfold Tokenizer.match_next_char at h
  cases hp : t.peek_next_char with
  | none => rw [hp] at h; simp at h
  | some c =>
    simp only [hp] at h
    by_cases hc : c = w
    · rw [if_pos hc] at h
      simp at h
      obtain ⟨-, h2⟩ := h
      subst h2
      exact ⟨rfl, Nat.le_succ _, rfl⟩
    · rw [if_neg hc] at h
      simp at h
      obtain ⟨-, h2⟩ := h
      subst h2
      exact ⟨rfl, Nat.le_refl _, rfl⟩

/-- `two_char_token` preserves the source and the token start, does not move
the cursor backwards, and records the token start as its position. -/
lemma two_char_token_spec (t : Tokenizer) (w : Char) (a b : TokenType)
    (tok : Token) (t' : Tokenizer)
    (h : Tokenizer.two_char_token t w a b = .ok (tok, t')) :
    t'.source = t.source ∧ t.cursor ≤ t'.cursor ∧
    t'.current_token_start = t.current_token_start ∧
    tokStart tok = t'.current_token_start := by
  unfold Tokenizer.two_char_token at h
  cases hm : t.match_next_char w with
  | none => rw [hm] at h; simp at h
  | some r =>
    obtain ⟨bb, t2⟩ := r
    rw [hm] at h
    obtain ⟨h1, h2, h3⟩ := match_next_char_spec t w bb t2 hm
    cases bb <;> simp at h <;> obtain ⟨h4, h5⟩ := h <;> subst h5 <;> subst h4 <;>
      exact ⟨h1, h2, h3, rfl⟩

/-- The state reached by a run of the whitespace-skipping loop: the source is
preserved, the cursor and the token start never move backwards, and the token
start stays one position behind the cursor. -/
lemma skip_whitespace_spec :
    ∀ n c t r, Tokenizer.skip_whitespace n c t = .ok r →
      t.current_token_start + 1 = t.cursor →
      (∀ t', r = .inl t' →
        t'.source = t.source ∧ t.cursor ≤ t'.cursor ∧
        t.current_token_start ≤ t'.current_token_start ∧
        t'.current_token_start + 1 = t'.cursor) ∧
      (∀ c' t', r = .inr (c', t') →
        t'.source = t.source ∧ t.cursor ≤ t'.cursor ∧
        t.current_token_start ≤ t'.current_token_start ∧
        t'.current_token_start + 1 = t'.cursor) := by
  intro n
  induction n with
  | zero => intro c t r h hst; simp [Tokenizer.skip_whitespace] at h
  | succ n ih =>
    intro c t r h hst
    simp only [Tokenizer.skip_whitespace] at h
    by_cases hws : Tokenizer.wsCond c
    · rw [if_pos hws] at h
      by_cases hend : t.is_at_end
      · rw [if_pos hend] at h
        simp at h
        subst h
        refine ⟨?_, ?_⟩
        · intro t' ht'
          simp at ht'
          subst ht'
          exact ⟨rfl, Nat.le_refl _, Nat.le_refl _, hst⟩
        · intro c' t' ht'
          simp at ht'
      · rw [if_neg hend] at h
        set t1 := if c = '\n' then
            { t with current_line := t.current_line + 1, current_column := 1 }
          else t with ht1
        have h1src : t1.source = t.source ∧ t1.cursor = t.cursor ∧
            t1.current_token_start = t.current_token_start := by
          rw [ht1]
          split <;> exact ⟨rfl, rfl, rfl⟩
        obtain ⟨hs1, hc1, hst1⟩ := h1src
        have hst2 : ({ (t1.consume_char).2 with
            current_token_start := (t1.consume_char).2.cursor - 1 } :
              Tokenizer).current_token_start + 1 =
            ({ (t1.consume_char).2 with
              current_token_start := (t1.consume_char).2.cursor - 1 } :
                Tokenizer).cursor := by
          show (t1.cursor + 1) - 1 + 1 = t1.cursor + 1
          omega
        obtain ⟨hinl, hinr⟩ := ih _ _ _ h hst2
        have hsrc2 : ({ (t1.consume_char).2 with
            current_token_start := (t1.consume_char).2.cursor - 1 } :
              Tokenizer).source = t.source := hs1
        have hcur2 : ({ (t1.consume_char).2 with
            current_token_start := (t1.consume_char).2.cursor - 1 } :
              Tokenizer).cursor = t.cursor + 1 := by
          show t1.cursor + 1 = t.cursor + 1
          omega
        have hts2 : ({ (t1.consume_char).2 with
            current_token_start := (t1.consume_char).2.cursor - 1 } :
              Tokenizer).current_token_start = t.cursor := by
          show (t1.cursor + 1) - 1 = t.cursor
          omega
        constructor
        · intro t' ht'
          obtain ⟨a1, a2, a3, a4⟩ := hinl t' ht'
          rw [hsrc2] at a1
          rw [hcur2] at a2
          rw [hts2] at a3
          exact ⟨a1, by omega, by omega, a4⟩
        · intro c' t' ht'
          obtain ⟨a1, a2, a3, a4⟩ := hinr c' t' ht'
          rw [hsrc2] at a1
          rw [hcur2] at a2
          rw [hts2] at a3
          exact ⟨a1, by omega, by omega, a4⟩
    · rw [if_neg hws] at h
      simp at h
      subst h
      refine ⟨?_, ?_⟩
      · intro t' ht'
        simp at ht'
      · intro c' t' ht'
        simp at ht'
        obtain ⟨-, ht'⟩ := ht'
        subst ht'
        exact ⟨rfl, Nat.le_refl _, Nat.le_refl _, hst⟩

/-- Inversion for the `Some(token)` wrapper. -/
lemma liftTok_spec (r : Res (Token × Tokenizer)) (opt : Option Token)
    (t' : Tokenizer) (h : Tokenizer.liftTok r = .ok (opt, t')) :
    ∃ tok, r = .ok (tok, t') ∧ opt = some tok := by
  cases r with
  | fatal => simp [Tokenizer.liftTok] at h
  | fuelOut => simp [Tokenizer.liftTok] at h
  | ok p =>
    obtain ⟨tok0, t2⟩ := p
    simp [Tokenizer.liftTok] at h
    obtain ⟨ho, ht⟩ := h
    subst ht
    exact ⟨tok0, rfl, ho.symm⟩

/-- `Tokenizer::consume_string` preserves the source and the token start,
moves the cursor forward, and stamps the token with the current token start. -/
lemma consume_string_spec (n : Nat) (t : Tokenizer) (tok : Token)
    (t' : Tokenizer) (h : Tokenizer.consume_string n t = .ok (tok, t')) :
    t'.source = t.source ∧ t.cursor ≤ t'.cursor ∧
    t'.current_token_start = t.current_token_start ∧
    tokStart tok = t'.current_token_start := by
  unfold Tokenizer.consume_string at h
  cases hl : Tokenizer.consume_string_loop n t with
  | fatal => rw [hl] at h; simp at h
  | fuelOut => rw [hl] at h; simp at h
  | ok p =>
    obtain ⟨b, t2⟩ := p
    simp only [hl] at h
    cases b with
    | false => simp at h
    | true =>
      simp at h
      obtain ⟨ho, ht⟩ := h
      subst ht
      obtain ⟨h1, h2, h3⟩ := consume_string_loop_spec n t true t2 hl
      exact ⟨h1, h2, h3, by rw [← ho]; rfl⟩

/-- `Tokenizer::consume_number` preserves the source and the token start,
moves the cursor forward, and stamps the token with the current token start. -/
lemma consume_number_spec (n : Nat) (t : Tokenizer) (tok : Token)
    (t' : Tokenizer) (h : Tokenizer.consume_number n t = .ok (tok, t')) :
    t'.source = t.source ∧ t.cursor ≤ t'.cursor ∧
    t'.current_token_start = t.current_token_start ∧
    tokStart tok = t'.current_token_start := by
  unfold Tokenizer.consume_number at h
  cases hl : Tokenizer.consume_number_loop n t with
  | fatal => rw [hl] at h; simp at h
  | fuelOut => rw [hl] at h; simp at h
  | ok t2 =>
    simp only [hl] at h
    simp at h
    obtain ⟨ho, ht⟩ := h
    subst ht
    obtain ⟨h1, h2, h3⟩ := consume_number_loop_spec n t t2 hl
    exact ⟨h1, h2, h3, by rw [← ho]; rfl⟩

/-- `Tokenizer::consume_identifier_or_keyword` preserves the source and the
token start, moves the cursor forward, and stamps the token with the current
token start. -/
lemma consume_identifier_spec (n : Nat) (t : Tokenizer) (tok : Token)
    (t' : Tokenizer)
    (h : Tokenizer.consume_identifier_or_keyword n t = .ok (tok, t')) :
    t'.source = t.source ∧ t.cursor ≤ t'.cursor ∧
    t'.current_token_start = t.current_token_start ∧
    tokStart tok = t'.current_token_start := by
  unfold Tokenizer.consume_identifier_or_keyword at h
  cases hl : Tokenizer.consume_identifier_loop n t with
  | fatal => rw [hl] at h; simp at h
  | fuelOut => rw [hl] at h; simp at h
  | ok t2 =>
    simp only [hl] at h
    simp at h
    obtain ⟨ho, ht⟩ := h
    subst ht
    obtain ⟨h1, h2, h3⟩ := consume_identifier_loop_spec n t t2 hl
    exact ⟨h1, h2, h3, by rw [← ho]; rfl⟩

/-- A single-character branch of `consume_token` leaves the state unchanged
and produces a token stamped at the current token start. -/
lemma dispatch_case_simple (t1 : Tokenizer) (ty : TokenType)
    (opt : Option Token) (t' : Tokenizer)
    (h : (Res.ok (some (t1.make_token ty), t1) :
        Res (Option Token × Tokenizer)) = .ok (opt, t')) :
    t'.source = t1.source ∧ t1.cursor ≤ t'.cursor ∧
    t'.current_token_start = t1.current_token_start ∧
    ∀ tok, opt = some tok → tokStart tok = t'.current_token_start := by
  simp at h
  obtain ⟨ho, ht⟩ := h
  subst ht
  refine ⟨rfl, Nat.le_refl _, rfl, ?_⟩
  intro tok htok
  rw [← ho] at htok
  simp at htok
  subst htok
  rfl

/-- A sub-consumer branch of `consume_token`: the sub-consumer's state/token
guarantees are transported through the `Some` wrapper. -/
lemma dispatch_case_sub (t1 : Tokenizer) (r : Res (Token × Tokenizer))
    (opt : Option Token) (t' : Tokenizer)
    (h : Tokenizer.liftTok r = .ok (opt, t'))
    (hspec : ∀ tok t2, r = .ok (tok, t2) →
      t2.source = t1.source ∧ t1.cursor ≤ t2.cursor ∧
      t2.current_token_start = t1.current_token_start ∧
      tokStart tok = t2.current_token_start) :
    t'.source = t1.source ∧ t1.cursor ≤ t'.cursor ∧
    t'.current_token_start = t1.current_token_start ∧
    ∀ tok, opt = some tok → tokStart tok = t'.current_token_start := by
  obtain ⟨tok0, hr, ho⟩ := liftTok_spec r opt t' h
  obtain ⟨h1, h2, h3, h4⟩ := hspec tok0 t' hr
  refine ⟨h1, h2, h3, ?_⟩
  intro tok htok
  rw [ho] at htok
  simp at htok
  subst htok
  exact h4

/-- The dispatch on the first non-whitespace character in
`Tokenizer::consume_token` preserves the source and the current token start,
never moves the cursor backwards, and every token it returns is stamped with
the current token start. -/
lemma consume_token_dispatch_spec (n : Nat) (c : Char) (t1 : Tokenizer)
    (opt : Option Token) (t' : Tokenizer)
    (h : Tokenizer.consume_token_dispatch n c t1 = .ok (opt, t')) :
    t'.source = t1.source ∧ t1.cursor ≤ t'.cursor ∧
    t'.current_token_start = t1.current_token_start ∧
    ∀ tok, opt = some tok → tokStart tok = t'.current_token_start := by
  unfold Tokenizer.consume_token_dispatch at h
  by_cases h1 : c = '('
  · rw [if_pos h1] at h; exact dispatch_case_simple t1 _ opt t' h
  rw [if_neg h1] at h
  by_cases h2 : c = ')'
  · rw [if_pos h2] at h; exact dispatch_case_simple t1 _ opt t' h
  rw [if_neg h2] at h
  by_cases h3 : c = '\x7b'
  · rw [if_pos h3] at h; exact dispatch_case_simple t1 _ opt t' h
  rw [if_neg h3] at h
  by_cases h4 : c = '\x7d'
  · rw [if_pos h4] at h; exact dispatch_case_simple t1 _ opt t' h
  rw [if_neg h4] at h
  by_cases h5 : c = ','
  · rw [if_pos h5] at h; exact dispatch_case_simple t1 _ opt t' h
  rw [if_neg h5] at h
  by_cases h6 : c = '.'
  · rw [if_pos h6] at h; exact dispatch_case_simple t1 _ opt t' h
  rw [if_neg h6] at h
  by_cases h7 : c = '+'
  · rw [if_pos h7] at h; exact dispatch_case_simple t1 _ opt t' h
  rw [if_neg h7] at h
  by_cases h8 : c = '*'
  · rw [if_pos h8] at h; exact dispatch_case_simple t1 _ opt t' h
  rw [if_neg h8] at h
  by_cases h9 : c = '/'
  · rw [if_pos h9] at h; exact dispatch_case_simple t1 _ opt t' h
  rw [if_neg h9] at h
  by_cases h10 : c = ';'
  · rw [if_pos h10] at h; exact dispatch_case_simple t1 _ opt t' h
  rw [if_neg h10] at h
  by_cases h11 : c = '-'
  · rw [if_pos h11] at h
    exact dispatch_case_sub t1 _ opt t' h
      (fun tok t2 hm => two_char_token_spec t1 _ _ _ tok t2 hm)
  rw [if_neg h11] at h
  by_cases h12 : c = '!'
  · rw [if_pos h12] at h
    exact dispatch_case_sub t1 _ opt t' h
      (fun tok t2 hm => two_char_token_spec t1 _ _ _ tok t2 hm)
  rw [if_neg h12] at h
  by_cases h13 : c = '='
  · rw [if_pos h13] at h
    exact dispatch_case_sub t1 _ opt t' h
      (fun tok t2 hm => two_char_token_spec t1 _ _ _ tok t2 hm)
  rw [if_neg h13] at h
  by_cases h14 : c = '>'
  · rw [if_pos h14] at h
    exact dispatch_case_sub t1 _ opt t' h
      (fun tok t2 hm => two_char_token_spec t1 _ _ _ tok t2 hm)
  rw [if_neg h14] at h
  by_cases h15 : c = '<'
  · rw [if_pos h15] at h
    exact dispatch_case_sub t1 _ opt t' h
      (fun tok t2 hm => two_char_token_spec t1 _ _ _ tok t2 hm)
  rw [if_neg h15] at h
  by_cases h16 : c = ':'
  case neg =>
    rw [if_neg h16] at h
    by_cases h17 : c = '"'
    · rw [if_pos h17] at h
      exact dispatch_case_sub t1 _ opt t' h
        (fun tok t2 hm => consume_string_spec n t1 tok t2 hm)
    rw [if_neg h17] at h
    by_cases h18 : c.isDigit
    · rw [if_pos h18] at h
      exact dispatch_case_sub t1 _ opt t' h
        (fun tok t2 hm => consume_number_spec n t1 tok t2 hm)
    rw [if_neg h18] at h
    by_cases h19 : Tokenizer.isIdentChar c
    · rw [if_pos h19] at h
      exact dispatch_case_sub t1 _ opt t' h
        (fun tok t2 hm => consume_identifier_spec n t1 tok t2 hm)
    rw [if_neg h19] at h
    simp at h
  case pos =>
    rw [if_pos h16] at h
    cases hm : t1.match_next_char '=' with
    | none => rw [hm] at h; simp at h
    | some p =>
      obtain ⟨b, t2⟩ := p
      obtain ⟨m1, m2, m3⟩ := match_next_char_spec t1 '=' b t2 hm
      cases b with
      | true =>
        simp only [hm] at h
        simp at h
        obtain ⟨ho, ht⟩ := h
        subst ht
        refine ⟨m1, m2, m3, ?_⟩
        intro tok htok
        rw [← ho] at htok
        simp at htok
        subst htok
        rfl
      | false =>
        simp only [hm] at h
        cases hm2 : t2.match_next_char ':' with
        | none => rw [hm2] at h; simp at h
        | some p2 =>
          obtain ⟨b2, t3⟩ := p2
          obtain ⟨k1, k2, k3⟩ := match_next_char_spec t2 ':' b2 t3 hm2
          cases b2 with
          | false => simp only [hm2] at h; simp at h
          | true =>
            simp only [hm2] at h
            simp at h
            obtain ⟨ho, ht⟩ := h
            subst ht
            refine ⟨by rw [k1, m1], by omega, by rw [k3, m3], ?_⟩
            intro tok htok
            rw [← ho] at htok
            simp at htok
            subst htok
            rfl

/-- `Tokenizer::consume_token`, entered with the token start equal to the
cursor (as `tokenize` arranges): the source is preserved, the cursor strictly
advances, the token start never moves backwards and stays strictly behind the
cursor, and any returned token is stamped with the final token start. -/
lemma consume_token_spec (n : Nat) (t : Tokenizer) (opt : Option Token)
    (t' : Tokenizer) (h : Tokenizer.consume_token n t = .ok (opt, t'))
    (hst : t.current_token_start = t.cursor) :
    t'.source = t.source ∧ t.cursor < t'.cursor ∧
    t.current_token_start ≤ t'.current_token_start ∧
    t'.current_token_start < t'.cursor ∧
    ∀ tok, opt = some tok → tokStart tok = t'.current_token_start := by
  unfold Tokenizer.consume_token at h
  simp only [] at h
  have hpc : (t.consume_char).2.cursor = t.cursor + 1 := rfl
  have hps : (t.consume_char).2.current_token_start = t.current_token_start := rfl
  have hpsrc : (t.consume_char).2.source = t.source := rfl
  have hst2 : (t.consume_char).2.current_token_start + 1 = (t.consume_char).2.cursor := by
    rw [hpc, hps, hst]
  cases hw : Tokenizer.skip_whitespace n (t.consume_char).1 (t.consume_char).2 with
  | fatal => rw [hw] at h; simp at h
  | fuelOut => rw [hw] at h; simp at h
  | ok r =>
    obtain ⟨hinl, hinr⟩ :=
      skip_whitespace_spec n (t.consume_char).1 (t.consume_char).2 r hw hst2
    cases r with
    | inl t2 =>
      simp only [hw] at h
      simp at h
      obtain ⟨ho, ht⟩ := h
      subst ht
      obtain ⟨a1, a2, a3, a4⟩ := hinl t2 rfl
      rw [hpsrc] at a1
      rw [hpc] at a2
      rw [hps] at a3
      refine ⟨a1, by omega, a3, by omega, ?_⟩
      intro tok htok
      rw [← ho] at htok
      simp at htok
    | inr p =>
      obtain ⟨c, t1⟩ := p
      simp only [hw] at h
      obtain ⟨a1, a2, a3, a4⟩ := hinr c t1 rfl
      rw [hpsrc] at a1
      rw [hpc] at a2
      rw [hps] at a3
      obtain ⟨b1, b2, b3, b4⟩ := consume_token_dispatch_spec n c t1 opt t' h
      rw [a1] at b1
      exact ⟨b1, by omega, by omega, by omega, b4⟩

/-- Invariant of the main `tokenize` loop: the produced list is nonempty,
its tokens other than the final one have strictly increasing start offsets at
or past the cursor, the whole list (final token included) has non-decreasing
start offsets, and every start offset is at least the current token start. -/
lemma tokenize_loop_spec : ∀ n t toks,
    Tokenizer.tokenize_loop n t = .ok toks →
    t.current_token_start ≤ t.cursor →
    toks ≠ [] ∧
    List.Chain' (fun a b => tokStart a < tokStart b) toks.dropLast ∧
    List.Chain' (fun a b => tokStart a ≤ tokStart b) toks ∧
    (∀ tok ∈ toks.dropLast, t.cursor ≤ tokStart tok) ∧
    (∀ tok ∈ toks, t.current_token_start ≤ tokStart tok) := by
  intro n
  induction n with
  | zero => intro t toks h hstc; simp [Tokenizer.tokenize_loop] at h
  | succ n ih =>
    intro t toks h hstc
    simp only [Tokenizer.tokenize_loop] at h
    by_cases hend : t.is_at_end
    · rw [if_pos hend] at h
      simp at h
      subst h
      refine ⟨by simp, by simp, by simp, by simp, ?_⟩
      intro tok htok
      simp at htok
      subst htok
      exact Nat.le_refl _
    · rw [if_neg hend] at h
      cases hc : Tokenizer.consume_token n { t with current_token_start := t.cursor } with
      | fatal => rw [hc] at h; simp at h
      | fuelOut => rw [hc] at h; simp at h
      | ok p =>
        obtain ⟨optTok, t2⟩ := p
        simp only [hc] at h
        cases hr : Tokenizer.tokenize_loop n t2 with
        | fatal => rw [hr] at h; simp at h
        | fuelOut => rw [hr] at h; simp at h
        | ok rest =>
          simp only [hr] at h
          obtain ⟨s1, s2, s3, s4, s5⟩ :=
            consume_token_spec n { t with current_token_start := t.cursor } optTok t2 hc rfl
          have s2' : t.cursor < t2.cursor := s2
          have s3' : t.cursor ≤ t2.current_token_start := s3
          obtain ⟨r1, r2, r3, r4, r5⟩ := ih t2 rest hr (by omega)
          cases optTok with
          | none =>
            simp at h
            subst h
            refine ⟨r1, r2, r3, ?_, ?_⟩
            · intro tok htok
              have := r4 tok htok
              omega
            · intro tok htok
              have := r5 tok htok
              omega
          | some tok0 =>
            simp at h
            subst h
            have htok0 : tokStart tok0 = t2.current_token_start := s5 tok0 rfl
            cases rest with
            | nil => exact absurd rfl r1
            | cons b bs =>
              have hdl : (tok0 :: b :: bs).dropLast = tok0 :: (b :: bs).dropLast := rfl
              refine ⟨by simp, ?_, ?_, ?_, ?_⟩
              · rw [hdl, List.chain'_cons']
                refine ⟨?_, r2⟩
                intro y hy
                have hym := List.mem_of_mem_head? hy
                have := r4 y hym
                omega
              · rw [List.chain'_cons']
                refine ⟨?_, r3⟩
                intro y hy
                simp at hy
                subst hy
                have := r5 b (List.mem_cons_self b bs)
                omega
              · intro tok htok
                rw [hdl] at htok
                simp only [List.mem_cons] at htok
                rcases htok with htok | htok
                · subst htok
                  omega
                · have := r4 tok htok
                  omega
              · intro tok htok
                simp only [List.mem_cons] at htok
                rcases htok with htok | htok | htok
                · subst htok
                  omega
                · rw [htok]
                  have := r5 b (List.mem_cons_self b bs)
                  omega
                · have := r5 tok (List.mem_cons_of_mem b htok)
                  omega

/-- C7: counterexample. Tokenizing the source `";"` yields the semicolon
token and the final end-of-input token both with start offset 0: the claimed
strict increase `start(t_i) < start(t_{i+1})` fails for the final pair,
because `tokenize` pushes the Eof token without first resetting
`current_token_start` to the cursor. -/
theorem tokenize_eof_start_counterexample :
    Tokenizer.tokenize ";" = .ok
      [{ type := .Semicolon, location := (1, 0), length := 1, literal_value := ";" },
       { type := .Eof, location := (1, 0), length := 1, literal_value := "" }] ∧
    ¬ tokStart { type := .Semicolon, location := (1, 0), length := 1, literal_value := ";" } < tokStart ({ type := .Eof, location := (1, 0), length := 1, literal_value := "" } : Token) :=
  ⟨rfl, by decide⟩

/-- C7 (amended): in every token list returned by `tokenize`, the start
offsets are strictly increasing among the tokens before the final
end-of-input token, and non-decreasing across the whole list (the final
end-of-input token may repeat the start offset of its predecessor). -/
theorem tokenize_start_positions_monotone (src : String) (toks : List Token)
    (h : Tokenizer.tokenize src = .ok toks) :
    toks ≠ [] ∧
    List.Chain' (fun a b => tokStart a < tokStart b) toks.dropLast ∧
    List.Chain' (fun a b => tokStart a ≤ tokStart b) toks := by
  unfold Tokenizer.tokenize at h
  obtain ⟨r1, r2, r3, -, -⟩ :=
    tokenize_loop_spec (2 * src.length + 4) (Tokenizer.new src.data) toks h
      (Nat.le_refl 0)
  exact ⟨r1, r2, r3⟩

/-- Witness for the amended C7 theorem at the concrete source
`"let number=1234;"` (the tokenizer test input from src/tokenizer.rs). -/
theorem tokenize_start_positions_monotone_witness :
    Tokenizer.tokenize "let number=1234;" = .ok
      [{ type := .Keyword .Let, location := (1, 0), length := 3, literal_value := "let" },
       { type := .Identifier, location := (1, 4), length := 6, literal_value := "number" },
       { type := .Equals, location := (1, 10), length := 1, literal_value := "=" },
       { type := .Number, location := (1, 11), length := 4, literal_value := "1234" },
       { type := .Semicolon, location := (1, 15), length := 1, literal_value := ";" },
       { type := .Eof, location := (1, 15), length := 1, literal_value := "" }] ∧
    (([{ type := .Keyword .Let, location := (1, 0), length := 3, literal_value := "let" },
       { type := .Identifier, location := (1, 4), length := 6, literal_value := "number" },
       { type := .Equals, location := (1, 10), length := 1, literal_value := "=" },
       { type := .Number, location := (1, 11), length := 4, literal_value := "1234" },
       { type := .Semicolon, location := (1, 15), length := 1, literal_value := ";" },
       { type := .Eof, location := (1, 15), length := 1, literal_value := "" }] :
         List Token) ≠ [] ∧
     List.Chain' (fun a b => tokStart a < tokStart b)
       ([{ type := .Keyword .Let, location := (1, 0), length := 3, literal_value := "let" },
         { type := .Identifier, location := (1, 4), length := 6, literal_value := "number" },
         { type := .Equals, location := (1, 10), length := 1, literal_value := "=" },
         { type := .Number, location := (1, 11), length := 4, literal_value := "1234" },
         { type := .Semicolon, location := (1, 15), length := 1, literal_value := ";" },
         { type := .Eof, location := (1, 15), length := 1,
           literal_value := "" }] : List Token).dropLast ∧
     List.Chain' (fun a b => tokStart a ≤ tokStart b)
       [{ type := .Keyword .Let, location := (1, 0), length := 3, literal_value := "let" },
        { type := .Identifier, location := (1, 4), length := 6, literal_value := "number" },
        { type := .Equals, location := (1, 10), length := 1, literal_value := "=" },
        { type := .Number, location := (1, 11), length := 4, literal_value := "1234" },
        { type := .Semicolon, location := (1, 15), length := 1, literal_value := ";" },
        { type := .Eof, location := (1, 15), length := 1, literal_value := "" }]) :=
  ⟨rfl, tokenize_start_positions_monotone "let number=1234;" _ rfl⟩

end Yep
